import Mathlib

/-!
# ai-pr-review-cost-estimator: rate-limit-aware harvesting and aggregation

A shallow embedding of `src/internal/api/github.go` and of the aggregation
arithmetic of `src/main.go`, followed by theorems about the embedded code.

Conventions of the embedding

* `time.Duration` is an `int64` count of nanoseconds: a `Duration` is an `Int`
  and every operation of the source that can leave the `int64` range is
  written with `wrapInt64` (two's complement wrap) or `satInt64` (the
  saturation `time.Time.Sub` performs).
* A `time.Time` is an instant and a location. The instant is a `Time`: an
  `Int` count of nanoseconds since the zero time `0001-01-01T00:00:00Z`, so
  that `IsZero` is `t = 0`; `IsZero`, `Before`, `After` and `Sub` read the
  instant only. The location matters to `Time.Date` only and is carried next
  to the instant as the offset of the location at that instant, in seconds
  east of UTC (0 for UTC and for the zero `time.Time`).
* Go's `int` is the 64-bit `int`.
* The package-level variable `policy` is passed explicitly, and so is every
  reading of the clock (`time.Now()`), of the cancellation state
  (`ctx.Err()`) and every answer of the remote API.
* `sleepJitter` only delays the caller (for a random time) and touches no
  value the functions return; it is left out of the traces.
* The `float64` arithmetic and the tokenizer that `main` uses are parameters
  of the embedding (`Main.Externals`): the theorems hold for every value of
  them.
-/

set_option linter.dupNamespace false

namespace Api

/-! ## Machine integers, durations and instants -/

/-- The type `time.Duration`: nanoseconds, an `int64`. -/
abbrev Duration := Int

/-- The type `time.Time`, as nanoseconds since the zero time. -/
abbrev Time := Int

/-- The constant `math.MinInt64`. -/
def minInt64 : Int := -9223372036854775808

/-- The constant `math.MaxInt64`. -/
def maxInt64 : Int := 9223372036854775807

/-- Two's complement wrap of an integer into the `int64` range. -/
def wrapInt64 (x : Int) : Int := (x + 9223372036854775808) % 18446744073709551616 - 9223372036854775808

/-- Saturation of an integer into the `int64` range. -/
def satInt64 (x : Int) : Int :=
  if x < minInt64 then minInt64 else if x > maxInt64 then maxInt64 else x

/-- The constant `time.Second`. -/
def Second : Duration := 1000000000

/-- The constant `time.Minute`. -/
def Minute : Duration := 60 * Second

/-- The method `Time.IsZero`. -/
def IsZero (t : Time) : Bool := t == 0

/-- The method `Time.Before`. -/
def Before (t u : Time) : Bool := decide (t < u)

/-- The method `Time.After`. -/
def After (t u : Time) : Bool := decide (t > u)

/-- The method `Time.Sub`: the difference `t - u`, saturated to the range of
a `Duration`. -/
def Sub (t u : Time) : Duration := satInt64 (t - u)

/-- The function `time.Until(t)`, which is `t.Sub(time.Now())`; `now` is the
reading of the clock. -/
def Until (now t : Time) : Duration := Sub t now

/-! ## `strconv.Atoi` -/

/-- The value of a decimal digit, `none` for any other character. -/
def digitVal (c : Char) : Option Nat :=
  if 48 ≤ c.toNat ∧ c.toNat ≤ 57 then some (c.toNat - 48) else none

/-- Reads a run of decimal digits, most significant first, onto `acc`. -/
def parseDigits : List Char → Nat → Option Nat
  | [], acc => some acc
  | c :: cs, acc =>
    match digitVal c with
    | some d => parseDigits cs (acc * 10 + d)
    | none => none

/-- The function `strconv.Atoi` on a 64-bit platform: an optional sign, then
one or more decimal digits, and a value inside the `int64` range; every other
string is an error (`none`). -/
def Atoi (s : String) : Option Int :=
  let signed (neg : Bool) (ds : List Char) : Option Int :=
    if ds.isEmpty then none
    else
      match parseDigits ds 0 with
      | none => none
      | some n =>
        let v : Int := if neg then -(n : Int) else (n : Int)
        if minInt64 ≤ v ∧ v ≤ maxInt64 then some v else none
  match s.toList with
  | [] => none
  | c :: cs =>
    if c = '-' then signed true cs
    else if c = '+' then signed false cs
    else signed false (c :: cs)

/-! ## Responses -/

/-- The function `textproto.CanonicalMIMEHeaderKey` on keys made of letters,
digits and hyphens: the first letter and every letter after a hyphen in upper
case, the others in lower case. -/
def canonicalMIMEHeaderKey (s : String) : String :=
  let rec go (upper : Bool) : List Char → List Char
    | [] => []
    | c :: cs => (if upper then c.toUpper else c.toLower) :: go (c == '-') cs
  String.mk (go true s.toList)

/-- The type `http.Header`: the values received under each canonical key. -/
structure Header where
  entries : List (String × List String)

/-- The method `Header.Get`: the first value under the canonical form of
`key`, the empty string when there is none. -/
def Header.Get (h : Header) (key : String) : String :=
  match h.entries.find? (fun kv => kv.1 == canonicalMIMEHeaderKey key) with
  | some kv => kv.2.headD ""
  | none => ""

/-- The fields of `http.Response` the code reads. -/
structure HttpResponse where
  StatusCode : Int
  Header : Header

/-- The field `Reset` of `github.Rate` (a `Timestamp` wrapping a `time.Time`). -/
structure Rate where
  Reset : Time

/-- The type `github.Response`: the embedded `*http.Response` (may be nil) and
the parsed rate. A `*github.Response` is an `Option Response`. -/
structure Response where
  Response : Option HttpResponse
  Rate : Rate

/-- The type `Policy`. -/
structure Policy where
  EventualComplete : Bool
  MaxWaitReset : Duration
  SleepMin : Duration
  SleepMax : Duration
  RetriesNonRate : Int

/-! ## Rate-limit detection and waiting -/

/-- The function `isRateLimitResponse`. -/
def isRateLimitResponse (resp : Option Response) : Bool :=
  match resp with
  | none => false
  | some r =>
    match r.Response with
    | none => false
    | some http =>
      let code := http.StatusCode
      if code = 429 then true
      else if code = 403 then http.Header.Get "X-RateLimit-Remaining" == "0"
      else false

/-- The function `waitWithCap`; the result is the duration handed to
`time.Sleep`. -/
def waitWithCap (policy : Policy) (wait : Duration) : Duration :=
  let capDur := policy.MaxWaitReset
  let capDur :=
    if !policy.EventualComplete then (if capDur = 0 then 2 * Minute else capDur)
    else capDur
  let wait := if capDur > 0 ∧ wait > capDur then capDur else wait
  wait

/-- What one call of `waitIfRateLimited` did: the boolean it returned, the
duration it handed to `waitWithCap` and the duration `waitWithCap` slept
(both `none` when it did not wait). -/
structure WaitResult where
  retry : Bool
  handed : Option Duration
  slept : Option Duration
deriving DecidableEq, Repr

/-- The result of `waitIfRateLimited` on the paths that return false. -/
def WaitResult.noWait : WaitResult := ⟨false, none, none⟩

/-- The result of `waitIfRateLimited` on the paths that call
`waitWithCap(wait)` and return true. -/
def WaitResult.waited (policy : Policy) (wait : Duration) : WaitResult :=
  ⟨true, some wait, some (waitWithCap policy wait)⟩

/-- The function `waitIfRateLimited`; `now` is the clock read by
`time.Until`. -/
def waitIfRateLimited (policy : Policy) (now : Time) (resp : Option Response) : WaitResult :=
  match resp with
  | none => WaitResult.noWait
  | some r =>
    match r.Response with
    | none => WaitResult.noWait
    | some http =>
      if !isRateLimitResponse resp then WaitResult.noWait
      else
        -- Fallback to Rate.Reset time
        let fallback : WaitResult :=
          if !IsZero r.Rate.Reset then
            let wait := Until now r.Rate.Reset
            let wait := if wait ≤ 0 then 5 * Second else wait
            WaitResult.waited policy wait
          else WaitResult.noWait
        -- Prefer Retry-After seconds if present
        let v := http.Header.Get "Retry-After"
        if v ≠ "" then
          match Atoi v with
          | some secs =>
            if secs > 0 then WaitResult.waited policy (wrapInt64 (secs * Second))
            else fallback
          | none => fallback
        else fallback

/-- The function `isSkippableClientError`. -/
def isSkippableClientError (resp : Option Response) : Bool :=
  match resp with
  | none => false
  | some r =>
    match r.Response with
    | none => false
    | some http =>
      let code := http.StatusCode
      if code = 403 then !isRateLimitResponse resp
      else if code = 404 ∨ code = 410 ∨ code = 451 then true
      else false

/-! ## Fetching the diff of one pull request -/

/-- The content of a Go string: its bytes. -/
abbrev Bytes := List UInt8

/-- What `client.PullRequests.GetRaw` answered to one call: the diff, or an
error together with the response (may be nil), the clock read while the error
is handled and whether `ctx.Err()` is non-nil at that moment. -/
inductive RawResult where
  | ok (diff : Bytes)
  | err (rresp : Option Response) (now : Time) (cancelled : Bool)

/-- What the diff-fetch loop does, in order. -/
inductive Event where
  | call
  | quotaWait (w : WaitResult)
  | backoff (d : Duration)
deriving DecidableEq, Repr

/-- The update of `backoff` after a backoff sleep: doubled while below two
minutes. -/
def nextBackoff (backoff : Duration) : Duration :=
  if backoff < 2 * Minute then backoff * 2 else backoff

/-- The inner `for` loop of `RepoPRDiffStats` (the calls of `GetRaw` for one
pull request), run against the answers `script` gives to the successive calls.
The result is the trace of the loop and the value of `diff` after it, `none`
when the answers run out before the loop ends. `attempts` is at least 1 at the
decrement and `backoff` below 2 minutes at the doubling, so neither leaves the
`int64` range. -/
def fetchDiffLoop (policy : Policy) :
    List RawResult → Int → Duration → List Event × Option Bytes
  | [], _, _ => ([], none)
  | RawResult.ok diff :: _, _, _ => ([Event.call], some diff)
  | RawResult.err rresp now cancelled :: rest, attempts, backoff =>
    if rresp.isSome && (waitIfRateLimited policy now rresp).retry then
      -- rate limit: wait according to policy and retry (no attempt decrement)
      let next := fetchDiffLoop policy rest attempts backoff
      (Event.call :: Event.quotaWait (waitIfRateLimited policy now rresp) :: next.1, next.2)
    else if isSkippableClientError rresp then
      ([Event.call], some [])
    else
      let attempts := attempts - 1
      if attempts ≤ 0 ∨ cancelled = true then
        ([Event.call], some [])
      else
        let next := fetchDiffLoop policy rest attempts (nextBackoff backoff)
        (Event.call :: Event.backoff backoff :: next.1, next.2)

/-- The diff fetch of `RepoPRDiffStats` for one pull request: the loop started
with `attempts = max(policy.RetriesNonRate, 1)` and `backoff = 1s`. -/
def fetchDiff (policy : Policy) (script : List RawResult) : List Event × Option Bytes :=
  let attempts := policy.RetriesNonRate
  let attempts := if attempts < 1 then 1 else attempts
  fetchDiffLoop policy script attempts (1 * Second)

/-- The number of `GetRaw` calls in a trace. -/
def callCount (ev : List Event) : Nat := ev.count Event.call

/-- The backoff sleeps of a trace, in order. -/
def backoffs : List Event → List Duration
  | [] => []
  | Event.backoff d :: ev => d :: backoffs ev
  | _ :: ev => backoffs ev

/-- The number of quota waits in a trace. -/
def quotaWaitCount : List Event → Nat
  | [] => 0
  | Event.quotaWait _ :: ev => quotaWaitCount ev + 1
  | _ :: ev => quotaWaitCount ev

/-- An answer that the loop treats as quota exhaustion: it waits and repeats
the call. -/
def RawResult.isQuotaWait (policy : Policy) : RawResult → Bool
  | RawResult.ok _ => false
  | RawResult.err rresp now _ => rresp.isSome && (waitIfRateLimited policy now rresp).retry

/-- An answer that the loop treats as a transient failure: an error that is
neither waited on as quota exhaustion nor skippable, with the run not
cancelled. -/
def RawResult.isTransient (policy : Policy) : RawResult → Bool
  | RawResult.ok _ => false
  | RawResult.err rresp now cancelled =>
    !(rresp.isSome && (waitIfRateLimited policy now rresp).retry)
      && !isSkippableClientError rresp && !cancelled

/-! ## Bounded sampling -/

/-- The sampling block of `RepoPRDiffStats` once both pointers are known to be
non-nil: the new values of `*sampleBudget` and of the sample buffer. -/
def sampleStep (sampleBudget : Int) (sampleBuf : Bytes) (diff : Bytes) : Int × Bytes :=
  let l : Int := diff.length
  if sampleBudget > 0 then
    let toTake := l
    let toTake := if toTake > sampleBudget then sampleBudget else toTake
    if toTake > 0 then
      let stop := toTake
      let stop := if stop > (diff.length : Int) then (diff.length : Int) else stop
      (sampleBudget - stop, sampleBuf ++ diff.take stop.toNat)
    else (sampleBudget, sampleBuf)
  else (sampleBudget, sampleBuf)

/-- The targets of the pointers `sampleBudget` and `sampleBuf` (`none` for a
nil pointer). -/
structure Sample where
  sampleBudget : Option Int
  sampleBuf : Option Bytes
deriving DecidableEq, Repr

/-- The sampling block of `RepoPRDiffStats`, nil checks included. -/
def Sample.add (s : Sample) (diff : Bytes) : Sample :=
  match s.sampleBudget, s.sampleBuf with
  | some budget, some buf =>
    ⟨some (sampleStep budget buf diff).1, some (sampleStep budget buf diff).2⟩
  | _, _ => s

/-! ## `RepoPRDiffStats` -/

/-- The field of `github.PullRequest` the code reads: `CreatedAt` (a
`*Timestamp`, nil when absent), and `Number`. `CreatedAtOffset` is the offset
of the location of `CreatedAt`, in seconds east of UTC (the offset written in
the timestamp the API sent). -/
structure PullRequest where
  CreatedAt : Option Time
  Number : Int
  CreatedAtOffset : Int
deriving DecidableEq, Repr

/-- The method `GetCreatedAt` followed by `.Time`: the zero time when the
field is nil. -/
def PullRequest.GetCreatedAt (pr : PullRequest) : Time :=
  match pr.CreatedAt with
  | some t => t
  | none => 0

/-- The offset of the location of the value `GetCreatedAt` returns: that of
`CreatedAt`, and 0 (UTC) for the zero time returned when the field is nil. -/
def PullRequest.GetCreatedAtOffset (pr : PullRequest) : Int :=
  match pr.CreatedAt with
  | some _ => pr.CreatedAtOffset
  | none => 0

/-- A listed pull request together with the answers of the API to the
successive `GetRaw` calls made for it. -/
structure PRItem where
  pr : PullRequest
  raw : List RawResult

/-- What `client.PullRequests.List` answered to one call: a page of pull
requests with the number of the next page (0 on the last page), or an error
together with the response (may be nil) and the clock read while it is
handled. -/
inductive ListResult where
  | ok (prs : List PRItem) (NextPage : Int)
  | err (resp : Option Response) (now : Time)

/-- The local variables `count`, `total`, `first`, `last` of `RepoPRDiffStats`
and the targets of its two pointers. `count` and `total` stay far inside the
`int64` range (they are bounded by the number of bytes received).
`firstOffset` and `lastOffset` are the offsets of the locations of `first`
and `last`. -/
structure Acc where
  count : Int
  total : Int
  first : Time
  last : Time
  sample : Sample
  firstOffset : Int
  lastOffset : Int
deriving DecidableEq, Repr

/-- The values `RepoPRDiffStats` returns (`err` true for a non-nil error);
`firstOffset` and `lastOffset` are the offsets of the locations of `first`
and `last`. -/
structure Stats where
  prCount : Int
  totalDiffChars : Int
  first : Time
  last : Time
  err : Bool
  firstOffset : Int
  lastOffset : Int
deriving DecidableEq, Repr

/-- The window test of `RepoPRDiffStats` on a creation time: false where the
loop body hits one of its three `continue` statements. -/
def inWindow (since untl : Option Time) (created : Time) : Bool :=
  if IsZero created then false
  else if since.isSome && Before created (since.getD 0) then false
  else if untl.isSome && After created (untl.getD 0) then false
  else true

/-- The body of the loop over the pull requests of a page, for one pull
request; `none` when the answers to its `GetRaw` calls run out. -/
def processPR (policy : Policy) (since untl : Option Time) (acc : Acc) (item : PRItem) :
    Option Acc :=
  let created := item.pr.GetCreatedAt
  if !inWindow since untl created then some acc
  else
    let count := acc.count + 1
    let first := if IsZero acc.first || Before created acc.first then created else acc.first
    let last := if IsZero acc.last || After created acc.last then created else acc.last
    let firstOffset :=
      if IsZero acc.first || Before created acc.first then item.pr.GetCreatedAtOffset
      else acc.firstOffset
    let lastOffset :=
      if IsZero acc.last || After created acc.last then item.pr.GetCreatedAtOffset
      else acc.lastOffset
    -- Fetch raw diff for the PR and sum its length in characters (graceful on errors)
    match (fetchDiff policy item.raw).2 with
    | none => none
    | some diff =>
      let l : Int := diff.length
      let total := acc.total + l
      some ⟨count, total, first, last, acc.sample.add diff, firstOffset, lastOffset⟩

/-- The loop over the pull requests of one page. -/
def processPRs (policy : Policy) (since untl : Option Time) : List PRItem → Acc → Option Acc
  | [], acc => some acc
  | item :: items, acc =>
    match processPR policy since untl acc item with
    | none => none
    | some acc => processPRs policy since untl items acc

/-- The outer `for` loop of `RepoPRDiffStats`, run against the answers
`script` gives to the successive `List` calls: the returned values and the
state of the sample, `none` when the answers run out before the function
returns. -/
def listLoop (policy : Policy) (since untl : Option Time) :
    List ListResult → Acc → Option (Stats × Sample)
  | [], _ => none
  | ListResult.err resp now :: rest, acc =>
    if resp.isSome && (waitIfRateLimited policy now resp).retry then
      -- retry same page after waiting
      listLoop policy since untl rest acc
    else some (⟨0, 0, 0, 0, true, 0, 0⟩, acc.sample)
  | ListResult.ok prs NextPage :: rest, acc =>
    match processPRs policy since untl prs acc with
    | none => none
    | some acc =>
      if NextPage = 0 then some (⟨acc.count, acc.total, acc.first, acc.last, false, acc.firstOffset,
          acc.lastOffset⟩, acc.sample)
      else listLoop policy since untl rest acc

/-- The function `RepoPRDiffStats`. -/
def RepoPRDiffStats (policy : Policy) (since untl : Option Time) (sample : Sample)
    (script : List ListResult) : Option (Stats × Sample) :=
  listLoop policy since untl script ⟨0, 0, 0, 0, sample, 0, 0⟩

/-- The pull requests returned over the pages of a listing: those of every
page up to the last one (the first page whose `NextPage` is 0). -/
def listedPRs : List ListResult → List PullRequest
  | [] => []
  | ListResult.err _ _ :: rest => listedPRs rest
  | ListResult.ok prs NextPage :: rest =>
    prs.map PRItem.pr ++ (if NextPage = 0 then [] else listedPRs rest)

/-- The time window in the words of the specification: a pull request is in
the window iff its creation time is set, `created ≥ since` (if set) and
`created ≤ until` (if set). -/
def specInWindow (since untl : Option Time) (created : Time) : Prop :=
  created ≠ 0 ∧ (∀ s, since = some s → s ≤ created) ∧ (∀ u, untl = some u → created ≤ u)

/-- The window of the specification can be decided. -/
instance (since untl : Option Time) (created : Time) :
    Decidable (specInWindow since untl created) :=
  decidable_of_iff
    (created ≠ 0 ∧ since.all (fun s => decide (s ≤ created)) = true
      ∧ untl.all (fun u => decide (created ≤ u)) = true)
    (by cases since <;> cases untl <;> simp [specInWindow])

/-- The creation times of the listed pull requests that are in the window of
the specification, in the order of listing. -/
def windowTimes (since untl : Option Time) (script : List ListResult) : List Time :=
  ((listedPRs script).map PullRequest.GetCreatedAt).filter
    (fun created => decide (specInWindow since untl created))

/-! ## How a diff fetch ends -/

/-- How the inner `for` loop of `RepoPRDiffStats` is left, following the same
branches as `fetchDiffLoop`: `some false` through the `break` after a call
that succeeded, `some true` through one of the two skips (a skippable status,
or the attempts used up or the run cancelled), `none` when the answers run
out. -/
def fetchLoopSkips (policy : Policy) : List RawResult → Int → Option Bool
  | [], _ => none
  | RawResult.ok _ :: _, _ => some false
  | RawResult.err rresp now cancelled :: rest, attempts =>
    if rresp.isSome && (waitIfRateLimited policy now rresp).retry then
      fetchLoopSkips policy rest attempts
    else if isSkippableClientError rresp then some true
    else
      let attempts := attempts - 1
      if attempts ≤ 0 ∨ cancelled = true then some true
      else fetchLoopSkips policy rest attempts

/-- How the diff fetch of one pull request ends, see `fetchLoopSkips`. -/
def fetchSkips (policy : Policy) (script : List RawResult) : Option Bool :=
  let attempts := policy.RetriesNonRate
  let attempts := if attempts < 1 then 1 else attempts
  fetchLoopSkips policy script attempts

/-- The listed pull requests with the answers to their `GetRaw` calls: those of
every page up to the last one (the first page whose `NextPage` is 0). -/
def listedItems : List ListResult → List PRItem
  | [] => []
  | ListResult.err _ _ :: rest => listedItems rest
  | ListResult.ok prs NextPage :: rest =>
    prs ++ (if NextPage = 0 then [] else listedItems rest)

/-- The listed pull requests that are in the window of the specification. -/
def windowItems (since untl : Option Time) (script : List ListResult) : List PRItem :=
  (listedItems script).filter
    (fun item => decide (specInWindow since untl item.pr.GetCreatedAt))

/-- The diff of the first `GetRaw` call that the API answered with success,
`none` when it answered none with success. -/
def firstOk : List RawResult → Option Bytes
  | [] => none
  | RawResult.ok diff :: _ => some diff
  | RawResult.err _ _ _ :: rest => firstOk rest

/-- The diffs fetched with success for the pull requests of the window: for
every pull request whose fetch does not end in a skip, the diff the API sent
in its first successful answer. -/
def fetchedDiffs (policy : Policy) (since untl : Option Time) (script : List ListResult) :
    List Bytes :=
  (windowItems since untl script).filterMap
    (fun item => if fetchSkips policy item.raw = some false then firstOk item.raw else none)

/-- The length of `diff` after the fetch loop of a pull request (0 when the
answers run out). -/
def diffLen (policy : Policy) (item : PRItem) : Int :=
  match (fetchDiff policy item.raw).2 with
  | some diff => (diff.length : Int)
  | none => 0

/-- The local variables of `RepoPRDiffStats` other than the sample. -/
def Acc.core (acc : Acc) : Int × Int × Time × Time × Int × Int :=
  (acc.count, acc.total, acc.first, acc.last, acc.firstOffset, acc.lastOffset)

/-- The local variables `count`, `first` and `last` summarise the list `W` of
creation times counted so far: `count` is its length, and `first` and `last`
are its least and greatest element (the zero time when it is empty). -/
def Tracks (count : Int) (first last : Time) (W : List Time) : Prop :=
  count = W.length ∧ (∀ t ∈ W, t ≠ 0)
  ∧ (W = [] → first = 0 ∧ last = 0)
  ∧ (W ≠ [] → first ∈ W ∧ last ∈ W ∧ ∀ t ∈ W, first ≤ t ∧ t ≤ last)

end Api

namespace Main

open Api

/-! ## Calendar dates and the months span of `main` -/

/-- The proleptic Gregorian year, month and day of a wall-clock reading given
in nanoseconds since `0001-01-01T00:00:00` on that clock. -/
def civilDate (wall : Int) : Int × Int × Int :=
  -- days since 0001-01-01, then days since 0000-03-01
  let days := wall / 86400000000000
  let z := days + 306
  let era := z / 146097
  let doe := z % 146097
  let yoe := (doe - doe / 1460 + doe / 36524 - doe / 146096) / 365
  let doy := doe - (365 * yoe + yoe / 4 - yoe / 100)
  let mp := (5 * doy + 2) / 153
  let d := doy - (153 * mp + 2) / 5 + 1
  let m := if mp < 10 then mp + 3 else mp - 9
  let y := yoe + era * 400 + (if m ≤ 2 then 1 else 0)
  (y, m, d)

/-- The method `Time.Date` of a `time.Time` with instant `t` whose location is
`offset` seconds east of UTC at that instant: the date of the wall clock of
that location. -/
def Date (t : Time) (offset : Int) : Int × Int × Int :=
  civilDate (t + offset * Second)

/-- The function `time.Date(y, m, d, 0, 0, 0, 0, time.UTC)` for a valid
calendar date: midnight UTC of that day. -/
def midnightUTC (y m d : Int) : Time :=
  let y' := if m ≤ 2 then y - 1 else y
  let era := y' / 400
  let yoe := y' % 400
  let mp := if m > 2 then m - 3 else m + 9
  let doy := (153 * mp + 2) / 5 + d - 1
  let doe := yoe * 365 + yoe / 4 - yoe / 100 + doy
  (era * 146097 + doe - 306) * 86400000000000

/-- The closure `computeMonthsSpan` of `main`; `firstOffset` and `lastOffset`
are the offsets of the locations of `first` and `last`. -/
def computeMonthsSpan (first last : Time) (firstOffset lastOffset : Int) : Int :=
  if IsZero first || IsZero last then 0
  else
    let (y1, m1, d1) := Date first firstOffset
    let (y2, m2, d2) := Date last lastOffset
    let months := (y2 - y1) * 12 + (m2 - m1)
    let months := if d2 < d1 then months + 1 else months
    let months := if months < 1 then 1 else months
    months

/-! ## The aggregation of `main` -/

/-- The field of `github.Repository` the code reads: `Name` (a `*string`). -/
structure Repository where
  Name : Option String
deriving DecidableEq, Repr

/-- The method `GetName`: the empty string when the field is nil. -/
def Repository.GetName (r : Repository) : String :=
  match r.Name with
  | some name => name
  | none => ""

/-- What `main` uses from outside the repository, taken as parameters: the
`float64` arithmetic (`F` stands for `float64`) and the tokenizer. -/
structure Externals (F : Type) where
  /-- The conversion `float64(n)`, also used for the literals `0.0`, `1000000.0`,
  `5.0` and `3.0`. -/
  ofInt : Int → F
  /-- The quotient of two `float64`. -/
  div : F → F → F
  /-- The product of two `float64`. -/
  mul : F → F → F
  /-- The test `x > 0`. -/
  pos : F → Bool
  /-- The conversion `int64(math.Round(x))`. -/
  round : F → Int
  /-- The number of tokens `enc.Encode` returns for a text, `none` when no
  encoding could be loaded. -/
  tokens : Bytes → Option Nat

/-- The type `model.RepoSummary`. -/
structure RepoSummary (F : Type) where
  RepoName : String
  TotalPRs : Int
  TotalDiffChars : Int
  AvgDiffCharsPerPR : F
deriving DecidableEq, Repr

/-- The type `model.OrgSummary`. -/
structure OrgSummary (F : Type) where
  RepoCount : Int
  TotalPRs : Int
  TotalDiffChars : Int
  MonthsSpan : Int
  AvgMonthlyPRs : F
  AvgMonthlyDiffChars : F
  AvgMonthlyTokens : Int
  CostGPT4oUSD : F
  CostClaudeSonnetUSD : F
deriving DecidableEq, Repr

/-- An entry of `repos` (may be nil) together with the answers of the API to
the `List` calls `RepoPRDiffStats` makes for it. -/
structure RepoRun where
  repo : Option Repository
  script : List ListResult

/-- The variables of `main` the loop over `repos` updates;
`globalFirstOffset` and `globalLastOffset` are the offsets of the locations of
`globalFirst` and `globalLast`. -/
structure Totals (F : Type) where
  repoSummaries : List (RepoSummary F)
  orgTotalPRs : Int
  orgTotalDiffChars : Int
  globalFirst : Time
  globalLast : Time
  sample : Sample
  globalFirstOffset : Int
  globalLastOffset : Int
deriving DecidableEq, Repr

/-- The variables of `main` before the loop over `repos`. -/
def Totals.init (F : Type) : Totals F :=
  ⟨[], 0, 0, 0, 0, ⟨some 200000, some []⟩, 0, 0⟩

/-- The variables of `main` the loop updates, other than the sample. -/
def Totals.core {F : Type} (st : Totals F) :
    List (RepoSummary F) × Int × Int × Time × Time × Int × Int :=
  (st.repoSummaries, st.orgTotalPRs, st.orgTotalDiffChars, st.globalFirst, st.globalLast,
    st.globalFirstOffset, st.globalLastOffset)

/-- The body of the loop of `main` over `repos`, for one entry; `none` when
the answers of the API run out. -/
def aggregateRepo {F : Type} (ext : Externals F) (policy : Policy) (since untl : Option Time)
    (st : Totals F) (run : RepoRun) : Option (Totals F) :=
  match run.repo with
  | none => some st
  | some r =>
    let repoName := r.GetName
    match RepoPRDiffStats policy since untl st.sample run.script with
    | none => none
    | some (stats, sample) =>
      if stats.err then
        -- Warning: failed to compute diff stats
        some ⟨st.repoSummaries, st.orgTotalPRs, st.orgTotalDiffChars, st.globalFirst,
          st.globalLast, sample, st.globalFirstOffset, st.globalLastOffset⟩
      else
        let prCount := stats.prCount
        let diffChars := stats.totalDiffChars
        let first := stats.first
        let last := stats.last
        let avgPerPR :=
          if prCount > 0 then ext.div (ext.ofInt diffChars) (ext.ofInt prCount)
          else ext.ofInt 0
        some ⟨st.repoSummaries ++ [⟨repoName, prCount, diffChars, avgPerPR⟩],
          st.orgTotalPRs + prCount,
          st.orgTotalDiffChars + diffChars,
          (if !IsZero first && (IsZero st.globalFirst || Before first st.globalFirst)
            then first else st.globalFirst),
          (if !IsZero last && (IsZero st.globalLast || After last st.globalLast)
            then last else st.globalLast),
          sample,
          (if !IsZero first && (IsZero st.globalFirst || Before first st.globalFirst)
            then stats.firstOffset else st.globalFirstOffset),
          (if !IsZero last && (IsZero st.globalLast || After last st.globalLast)
            then stats.lastOffset else st.globalLastOffset)⟩

/-- The loop of `main` over `repos`. -/
def aggregateRepos {F : Type} (ext : Externals F) (policy : Policy) (since untl : Option Time) :
    List RepoRun → Totals F → Option (Totals F)
  | [], st => some st
  | run :: runs, st =>
    match aggregateRepo ext policy since untl st run with
    | none => none
    | some st => aggregateRepos ext policy since untl runs st

/-- What `main` has computed when it renders the report: the sequence of
`RepoSummary`, the `OrgSummary`, the global first and last creation times and
the final sample budget and buffer. -/
structure Report (F : Type) where
  repoSummaries : List (RepoSummary F)
  orgSummary : OrgSummary F
  globalFirst : Time
  globalLast : Time
  sample : Sample
  globalFirstOffset : Int
  globalLastOffset : Int
deriving DecidableEq, Repr

/-- The part of `main` after the loop over `repos`: months span, monthly
averages, tokens and costs, and the `OrgSummary`; `repoCount` is
`len(repos)`. -/
def summarize {F : Type} (ext : Externals F) (repoCount : Int) (st : Totals F) : Report F :=
  let monthsSpan :=
    computeMonthsSpan st.globalFirst st.globalLast st.globalFirstOffset st.globalLastOffset
  let avgMonthlyPRs :=
    if monthsSpan > 0 then ext.div (ext.ofInt st.orgTotalPRs) (ext.ofInt monthsSpan)
    else ext.ofInt 0
  let avgMonthlyDiffChars :=
    if monthsSpan > 0 then ext.div (ext.ofInt st.orgTotalDiffChars) (ext.ofInt monthsSpan)
    else ext.ofInt 0
  let sampleText : Bytes :=
    match st.sample.sampleBuf with
    | some buf => buf
    | none => []
  let avgMonthlyTokens : Int :=
    if ext.pos avgMonthlyDiffChars then
      if sampleText.length > 0 then
        match ext.tokens sampleText with
        | some toks =>
          if toks > 0 then
            let ratio := ext.div (ext.ofInt toks) (ext.ofInt sampleText.length)
            let est := ext.mul ratio avgMonthlyDiffChars
            ext.round est
          else 0
        | none => 0
      else 0
    else 0
  let costGPT4oUSD :=
    if avgMonthlyTokens > 0 then
      ext.mul (ext.div (ext.ofInt avgMonthlyTokens) (ext.ofInt 1000000)) (ext.ofInt 5)
    else ext.ofInt 0
  let costClaudeUSD :=
    if avgMonthlyTokens > 0 then
      ext.mul (ext.div (ext.ofInt avgMonthlyTokens) (ext.ofInt 1000000)) (ext.ofInt 3)
    else ext.ofInt 0
  ⟨st.repoSummaries,
    ⟨repoCount, st.orgTotalPRs, st.orgTotalDiffChars, monthsSpan, avgMonthlyPRs,
      avgMonthlyDiffChars, avgMonthlyTokens, costGPT4oUSD, costClaudeUSD⟩,
    st.globalFirst, st.globalLast, st.sample, st.globalFirstOffset, st.globalLastOffset⟩

/-- The function `main` from the listed repositories on: the loop over `repos`
and the summary; `none` when the answers of the API run out. -/
def mainReport {F : Type} (ext : Externals F) (policy : Policy) (since untl : Option Time)
    (runs : List RepoRun) : Option (Report F) :=
  match aggregateRepos ext policy since untl runs (Totals.init F) with
  | none => none
  | some st => some (summarize ext (runs.length : Int) st)

/-- The fields of a report that depend on the pull requests counted and not
on the number of repositories nor on the sample. -/
def Report.aggregates {F : Type} (rep : Report F) :
    List (RepoSummary F) × Int × Int × Int × F × F × Time × Time × Int × Int :=
  (rep.repoSummaries, rep.orgSummary.TotalPRs, rep.orgSummary.TotalDiffChars,
    rep.orgSummary.MonthsSpan, rep.orgSummary.AvgMonthlyPRs,
    rep.orgSummary.AvgMonthlyDiffChars, rep.globalFirst, rep.globalLast,
    rep.globalFirstOffset, rep.globalLastOffset)

/-- An instance of the external operations on which the code can be run:
exact rational arithmetic in place of `float64`, rounding half up, and one
token for every four bytes of text. -/
def exactExternals : Externals Rat where
  ofInt := fun n => (n : Rat)
  div := fun x y => x / y
  mul := fun x y => x * y
  pos := fun x => decide (0 < x)
  round := fun x => Rat.floor (x + 1 / 2)
  tokens := fun text => some ((text.length + 3) / 4)

end Main

/-! # Theorems -/

namespace Api

/-- C1: `isRateLimitResponse` returns true if and only if the response and its
HTTP response are non-nil and the status is 429, or the status is 403 and the
`X-RateLimit-Remaining` header reads "0" (so it is false for a 403 whose header
is anything else or absent, and for every other status); it is false for a nil
response and for a response without HTTP response. -/
theorem isRateLimitResponse_iff (resp : Option Response) :
    (isRateLimitResponse resp = true ↔
      ∃ r http, resp = some r ∧ r.Response = some http ∧
        (http.StatusCode = 429 ∨
          (http.StatusCode = 403 ∧ http.Header.Get "X-RateLimit-Remaining" = "0")))
    ∧ isRateLimitResponse none = false
    ∧ (∀ rate, isRateLimitResponse (some ⟨none, rate⟩) = false) := by
  refine ⟨?_, rfl, fun _ => rfl⟩
  cases resp with
  | none => simp [isRateLimitResponse]
  | some r =>
    obtain ⟨resp', rate⟩ := r
    cases resp' with
    | none => simp [isRateLimitResponse]
    | some http =>
      simp only [isRateLimitResponse]
      by_cases h1 : http.StatusCode = 429
      · simp [h1]
      · by_cases h2 : http.StatusCode = 403
        · simp [h2]
        · simp [h1, h2]

/-- Saturation keeps the sign of a non-positive or positive value. -/
theorem satInt64_nonpos_iff (x : Int) : satInt64 x ≤ 0 ↔ x ≤ 0 := by
  unfold satInt64 minInt64 maxInt64
  split_ifs <;> omega

/-- C2, counterexample: for a 429 response without `Retry-After` whose reset
instant is 3 seconds ahead of the clock, `waitIfRateLimited` hands 3 seconds to
`waitWithCap`, which is shorter than 5 seconds and is not
`max(reset - now, 5s) = 5s`. -/
theorem waitIfRateLimited_reset_short :
    isRateLimitResponse (some ⟨some ⟨429, ⟨[]⟩⟩, ⟨1003 * Second⟩⟩) = true
    ∧ (⟨[]⟩ : Header).Get "Retry-After" = ""
    ∧ IsZero (1003 * Second) = false
    ∧ (waitIfRateLimited ⟨false, 0, 0, 0, 1⟩ (1000 * Second)
        (some ⟨some ⟨429, ⟨[]⟩⟩, ⟨1003 * Second⟩⟩)).handed = some (3 * Second)
    ∧ max (1003 * Second - 1000 * Second) (5 * Second) = 5 * Second
    ∧ (3 * Second : Duration) < 5 * Second := by
  decide

/-- C2, as amended: for every quota-exhausted response that has no positive
`Retry-After` value and whose reset instant is non-zero, `waitIfRateLimited`
returns true and the wait it hands to `waitWithCap` is `reset - now` (saturated
to the range of a `Duration`) when `reset - now` is positive, and 5 seconds
when `reset - now ≤ 0`; the wait is always positive. -/
theorem waitIfRateLimited_reset_wait (policy : Policy) (now : Time) (r : Response)
    (http : HttpResponse) (hresp : r.Response = some http)
    (hlimited : isRateLimitResponse (some r) = true)
    (hretry : ∀ secs, Atoi (http.Header.Get "Retry-After") = some secs → secs ≤ 0)
    (hreset : r.Rate.Reset ≠ 0) :
    (waitIfRateLimited policy now (some r)).retry = true
    ∧ (waitIfRateLimited policy now (some r)).handed =
        some (if r.Rate.Reset - now ≤ 0 then 5 * Second else satInt64 (r.Rate.Reset - now))
    ∧ (∀ w, (waitIfRateLimited policy now (some r)).handed = some w → 0 < w) := by
  have hfb : (if (!IsZero r.Rate.Reset) = true then
        WaitResult.waited policy
          (if Until now r.Rate.Reset ≤ 0 then 5 * Second else Until now r.Rate.Reset)
      else WaitResult.noWait) =
      WaitResult.waited policy
        (if r.Rate.Reset - now ≤ 0 then 5 * Second else satInt64 (r.Rate.Reset - now)) := by
    have hz : IsZero r.Rate.Reset = false := by simp [IsZero, hreset]
    simp only [hz, Bool.not_false, if_true, Until, Sub, satInt64_nonpos_iff]
  have hres : waitIfRateLimited policy now (some r) =
      WaitResult.waited policy
        (if r.Rate.Reset - now ≤ 0 then 5 * Second else satInt64 (r.Rate.Reset - now)) := by
    simp only [waitIfRateLimited, hresp, hlimited, Bool.not_true, Bool.false_eq_true, if_false]
    rw [hfb]
    by_cases hv : http.Header.Get "Retry-After" = ""
    · simp [hv]
    · simp only [ne_eq, hv, not_false_eq_true, if_true]
      cases ha : Atoi (http.Header.Get "Retry-After") with
      | none => rfl
      | some secs =>
        have := hretry secs ha
        simp only []
        rw [if_neg (by omega)]
  rw [hres]
  refine ⟨rfl, rfl, ?_⟩
  intro w hw
  simp only [WaitResult.waited, Option.some.injEq] at hw
  subst hw
  by_cases hd : r.Rate.Reset - now ≤ 0
  · rw [if_pos hd]; decide
  · rw [if_neg hd]
    have := (satInt64_nonpos_iff (r.Rate.Reset - now)).not.mpr hd
    exact lt_of_not_le this

/-- C2, witness: a 429 response without `Retry-After` whose reset instant is 10
seconds ahead of the clock is waited on for 10 seconds. -/
theorem waitIfRateLimited_reset_wait_witness :
    (waitIfRateLimited ⟨false, 0, 0, 0, 1⟩ (1000 * Second)
        (some ⟨some ⟨429, ⟨[]⟩⟩, ⟨1010 * Second⟩⟩)).retry = true
    ∧ (waitIfRateLimited ⟨false, 0, 0, 0, 1⟩ (1000 * Second)
        (some ⟨some ⟨429, ⟨[]⟩⟩, ⟨1010 * Second⟩⟩)).handed = some (10 * Second) :=
  have h := waitIfRateLimited_reset_wait ⟨false, 0, 0, 0, 1⟩ (1000 * Second)
    ⟨some ⟨429, ⟨[]⟩⟩, ⟨1010 * Second⟩⟩ ⟨429, ⟨[]⟩⟩ rfl (by decide)
    (fun secs h => absurd h (by simp [Header.Get, Atoi])) (by decide)
  ⟨h.1, h.2.1.trans (by decide)⟩

/-- Wrapping leaves a value of the `int64` range unchanged. -/
theorem wrapInt64_of_range (x : Int) (hlo : -9223372036854775808 ≤ x)
    (hhi : x ≤ 9223372036854775807) : wrapInt64 x = x := by
  unfold wrapInt64
  omega

/-- C3, counterexample: with `Retry-After: 9223372037` (a positive integer that
`strconv.Atoi` accepts) the product with `time.Second` leaves the `int64` range
and the wait handed to `waitWithCap` is negative, not 9223372037 seconds; and
with `Retry-After: 9223372036854775808` (a positive integer `strconv.Atoi`
rejects) the reset instant is consulted: the wait is the 7 seconds to the
reset, and without a reset instant the function does not wait at all. -/
theorem waitIfRateLimited_retry_after_out_of_range :
    (Atoi "9223372037" = some 9223372037
      ∧ isRateLimitResponse
          (some ⟨some ⟨429, ⟨[("Retry-After", ["9223372037"])]⟩⟩, ⟨0⟩⟩) = true
      ∧ (waitIfRateLimited ⟨false, 0, 0, 0, 1⟩ (1000 * Second)
          (some ⟨some ⟨429, ⟨[("Retry-After", ["9223372037"])]⟩⟩, ⟨0⟩⟩)).handed
          = some (-9223372036709551616)
      ∧ (-9223372036709551616 : Duration) ≠ 9223372037 * Second)
    ∧ (isRateLimitResponse
          (some ⟨some ⟨429, ⟨[("Retry-After", ["9223372036854775808"])]⟩⟩,
            ⟨1007 * Second⟩⟩) = true
      ∧ (waitIfRateLimited ⟨false, 0, 0, 0, 1⟩ (1000 * Second)
          (some ⟨some ⟨429, ⟨[("Retry-After", ["9223372036854775808"])]⟩⟩,
            ⟨1007 * Second⟩⟩)).handed = some (7 * Second)
      ∧ (waitIfRateLimited ⟨false, 0, 0, 0, 1⟩ (1000 * Second)
          (some ⟨some ⟨429, ⟨[("Retry-After", ["9223372036854775808"])]⟩⟩,
            ⟨0⟩⟩)).retry = false) := by
  decide

/-- C3, as amended: for every quota-exhausted response whose `Retry-After`
header `strconv.Atoi` reads as a positive integer `n`, `waitIfRateLimited`
returns true, the result does not depend on the reset instant nor on the clock,
and when `n ≤ 9223372036` (so that `n` seconds fit a `Duration`) the wait handed
to `waitWithCap` is exactly `n` seconds. -/
theorem waitIfRateLimited_retry_after (policy : Policy) (now : Time) (r : Response)
    (http : HttpResponse) (n : Int) (hresp : r.Response = some http)
    (hlimited : isRateLimitResponse (some r) = true)
    (hparse : Atoi (http.Header.Get "Retry-After") = some n) (hpos : 0 < n) :
    (waitIfRateLimited policy now (some r)).retry = true
    ∧ (n ≤ 9223372036 →
        (waitIfRateLimited policy now (some r)).handed = some (n * Second))
    ∧ (∀ (now' reset' : Time),
        waitIfRateLimited policy now' (some ⟨r.Response, ⟨reset'⟩⟩)
          = waitIfRateLimited policy now (some r)) := by
  have hne : http.Header.Get "Retry-After" ≠ "" := by
    intro h
    rw [h] at hparse
    have hnone : Atoi "" = none := by decide
    rw [hnone] at hparse
    exact Option.noConfusion hparse
  have hlimited' : ∀ reset' : Time,
      isRateLimitResponse (some ⟨r.Response, ⟨reset'⟩⟩) = true := by
    intro reset'
    simpa [isRateLimitResponse, hresp] using hlimited
  have hres : ∀ (now' reset' : Time),
      waitIfRateLimited policy now' (some ⟨r.Response, ⟨reset'⟩⟩)
        = WaitResult.waited policy (wrapInt64 (n * Second)) := by
    intro now' reset'
    have hl := hlimited' reset'
    rw [hresp] at hl
    simp only [waitIfRateLimited, hresp, hl, Bool.not_true, Bool.false_eq_true,
      if_false, ne_eq, hne, not_false_eq_true, if_true, hparse, gt_iff_lt, hpos]
  have hself : waitIfRateLimited policy now (some r)
      = WaitResult.waited policy (wrapInt64 (n * Second)) := by
    have := hres now r.Rate.Reset
    simpa using this
  refine ⟨by rw [hself]; rfl, ?_, ?_⟩
  · intro hle
    rw [hself]
    have : wrapInt64 (n * Second) = n * Second := by
      apply wrapInt64_of_range <;> (unfold Second; omega)
    rw [this]
    rfl
  · intro now' reset'
    rw [hres, hself]

/-- C3, witness: `Retry-After: 5` on a 429 response whose reset instant is in
the past gives a wait of exactly 5 seconds. -/
theorem waitIfRateLimited_retry_after_witness :
    (waitIfRateLimited ⟨false, 0, 0, 0, 1⟩ (1000 * Second)
        (some ⟨some ⟨429, ⟨[("Retry-After", ["5"])]⟩⟩, ⟨990 * Second⟩⟩)).retry = true
    ∧ (waitIfRateLimited ⟨false, 0, 0, 0, 1⟩ (1000 * Second)
        (some ⟨some ⟨429, ⟨[("Retry-After", ["5"])]⟩⟩, ⟨990 * Second⟩⟩)).handed
        = some (5 * Second) :=
  have h := waitIfRateLimited_retry_after ⟨false, 0, 0, 0, 1⟩ (1000 * Second)
    ⟨some ⟨429, ⟨[("Retry-After", ["5"])]⟩⟩, ⟨990 * Second⟩⟩
    ⟨429, ⟨[("Retry-After", ["5"])]⟩⟩ 5 rfl (by decide) (by decide) (by decide)
  ⟨h.1, h.2.1 (by decide)⟩

/-- C4, counterexample: with `MaxWaitReset = -1s` (non-zero) a requested wait
of 10 minutes is slept in full in both modes; it is not
`min(w, MaxWaitReset) = -1s`, and in non-eventual mode it is bounded neither by
the configured value nor by 2 minutes. -/
theorem waitWithCap_negative_cap :
    waitWithCap ⟨false, -1 * Second, 0, 0, 1⟩ (10 * Minute) = 10 * Minute
    ∧ min (10 * Minute) (-1 * Second) = -1 * Second
    ∧ (-1 * Second : Duration) ≠ 0
    ∧ (2 * Minute : Duration) < 10 * Minute
    ∧ waitWithCap ⟨true, -1 * Second, 0, 0, 1⟩ (10 * Minute) = 10 * Minute := by
  decide

/-- C4, as amended: for every requested wait `w` and every `Policy`, the
duration `waitWithCap` sleeps is `min(w, MaxWaitReset)` when
`MaxWaitReset > 0`, in either mode; `min(w, 2 minutes)` when `MaxWaitReset = 0`
and `EventualComplete` is false; and `w` itself otherwise (`MaxWaitReset = 0`
in eventual mode, or `MaxWaitReset < 0` in either mode). Hence in non-eventual
mode with `MaxWaitReset ≥ 0` the wait is bounded by the cap (the configured
one, or 2 minutes). -/
theorem waitWithCap_eq (policy : Policy) (w : Duration) :
    waitWithCap policy w =
      (if policy.MaxWaitReset > 0 then min w policy.MaxWaitReset
       else if policy.MaxWaitReset = 0 ∧ policy.EventualComplete = false then min w (2 * Minute)
       else w)
    ∧ (policy.EventualComplete = false → 0 ≤ policy.MaxWaitReset →
        waitWithCap policy w ≤
          (if policy.MaxWaitReset = 0 then 2 * Minute else policy.MaxWaitReset)) := by
  obtain ⟨ec, cap, smin, smax, retries⟩ := policy
  have key : ∀ (c x : Int), (if c > 0 ∧ x > c then c else x) = if c > 0 then min x c else x := by
    intro c x
    by_cases hc : c > 0
    · by_cases hx : x > c
      · simp [hc, hx, min_eq_right (le_of_lt hx)]
      · simp [hc, hx, min_eq_left (not_lt.mp hx)]
    · simp [hc]
  have h2 : (2 * Minute : Int) = 120000000000 := by decide
  constructor
  · simp only [waitWithCap]
    rw [key]
    cases ec <;> by_cases h0 : cap = 0
    · subst h0; simp [h2]
    · have : ¬ (cap = 0 ∧ True) := by simpa using h0
      simp [h0]
    · subst h0; simp
    · simp [h0]
  · intro hec hnn
    simp only at hec hnn
    subst hec
    simp only [waitWithCap]
    rw [key]
    by_cases h0 : cap = 0
    · subst h0; simp [h2]
    · have hpos : cap > 0 := lt_of_le_of_ne hnn (Ne.symm h0)
      simp [h0, hpos]

/-- C5: `isSkippableClientError` returns true if and only if the response and
its HTTP response are non-nil and the status is 404, 410 or 451, or the status
is 403 and `isRateLimitResponse` is false; no response is both rate-limited and
skippable, and a nil response (or one without HTTP response) is not
skippable. -/
theorem isSkippableClientError_iff (resp : Option Response) :
    (isSkippableClientError resp = true ↔
      ∃ r http, resp = some r ∧ r.Response = some http ∧
        (http.StatusCode = 404 ∨ http.StatusCode = 410 ∨ http.StatusCode = 451
          ∨ (http.StatusCode = 403 ∧ isRateLimitResponse resp = false)))
    ∧ ¬ (isRateLimitResponse resp = true ∧ isSkippableClientError resp = true)
    ∧ isSkippableClientError none = false
    ∧ (∀ rate, isSkippableClientError (some ⟨none, rate⟩) = false) := by
  refine ⟨?_, ?_, rfl, fun _ => rfl⟩
  · cases resp with
    | none => simp [isSkippableClientError]
    | some r =>
      obtain ⟨resp', rate⟩ := r
      cases resp' with
      | none => simp [isSkippableClientError]
      | some http =>
        simp only [isSkippableClientError]
        by_cases h1 : http.StatusCode = 403
        · simp [h1]
        · by_cases h2 : http.StatusCode = 404 ∨ http.StatusCode = 410 ∨ http.StatusCode = 451
          · simp [h1, h2]
          · simp [h1, h2]
  · cases resp with
    | none => simp [isSkippableClientError]
    | some r =>
      obtain ⟨resp', rate⟩ := r
      cases resp' with
      | none => simp [isSkippableClientError]
      | some http =>
        simp only [isSkippableClientError, isRateLimitResponse]
        by_cases h1 : http.StatusCode = 403
        · simp [h1]
        · by_cases h3 : http.StatusCode = 429
          · simp [h3]
          · simp [h1, h3]

/-- C6, counterexample: with `RetriesNonRate = 1` a first transient failure
(status 500) ends the diff fetch after one call, with no retry and an empty
diff, although the next call would have succeeded; the claim asks for
`max(1, 1) = 1` retry, two calls in total. -/
theorem fetchDiff_single_attempt :
    RawResult.isTransient ⟨false, 0, 0, 0, 1⟩
        (RawResult.err (some ⟨some ⟨500, ⟨[]⟩⟩, ⟨0⟩⟩) 0 false) = true
    ∧ max (1 : Int) 1 = 1
    ∧ fetchDiff ⟨false, 0, 0, 0, 1⟩
        [RawResult.err (some ⟨some ⟨500, ⟨[]⟩⟩, ⟨0⟩⟩) 0 false, RawResult.ok [100, 105, 102, 102]]
        = ([Event.call], some [])
    ∧ callCount (fetchDiff ⟨false, 0, 0, 0, 1⟩
        [RawResult.err (some ⟨some ⟨500, ⟨[]⟩⟩, ⟨0⟩⟩) 0 false,
          RawResult.ok [100, 105, 102, 102]]).1 = 1 := by
  decide

/-- One turn of the diff-fetch loop on a quota wait. -/
theorem fetchDiffLoop_quota_step (policy : Policy) (e : RawResult) (rest : List RawResult)
    (attempts : Int) (backoff : Duration) (h : e.isQuotaWait policy = true) :
    (fetchDiffLoop policy (e :: rest) attempts backoff).2
        = (fetchDiffLoop policy rest attempts backoff).2
    ∧ callCount (fetchDiffLoop policy (e :: rest) attempts backoff).1
        = callCount (fetchDiffLoop policy rest attempts backoff).1 + 1
    ∧ backoffs (fetchDiffLoop policy (e :: rest) attempts backoff).1
        = backoffs (fetchDiffLoop policy rest attempts backoff).1
    ∧ quotaWaitCount (fetchDiffLoop policy (e :: rest) attempts backoff).1
        = quotaWaitCount (fetchDiffLoop policy rest attempts backoff).1 + 1 := by
  cases e with
  | ok diff => simp [RawResult.isQuotaWait] at h
  | err rresp now cancelled =>
    simp only [RawResult.isQuotaWait] at h
    simp [fetchDiffLoop, h, callCount, backoffs, quotaWaitCount]

/-- One turn of the diff-fetch loop on a transient failure with attempts left. -/
theorem fetchDiffLoop_transient_step (policy : Policy) (e : RawResult) (rest : List RawResult)
    (attempts : Int) (backoff : Duration) (h : e.isTransient policy = true)
    (hatt : 0 < attempts - 1) :
    (fetchDiffLoop policy (e :: rest) attempts backoff).2
        = (fetchDiffLoop policy rest (attempts - 1) (nextBackoff backoff)).2
    ∧ callCount (fetchDiffLoop policy (e :: rest) attempts backoff).1
        = callCount (fetchDiffLoop policy rest (attempts - 1) (nextBackoff backoff)).1 + 1
    ∧ backoffs (fetchDiffLoop policy (e :: rest) attempts backoff).1
        = backoff :: backoffs (fetchDiffLoop policy rest (attempts - 1) (nextBackoff backoff)).1
    ∧ quotaWaitCount (fetchDiffLoop policy (e :: rest) attempts backoff).1
        = quotaWaitCount (fetchDiffLoop policy rest (attempts - 1) (nextBackoff backoff)).1 := by
  cases e with
  | ok diff => simp [RawResult.isTransient] at h
  | err rresp now cancelled =>
    simp only [RawResult.isTransient, Bool.and_eq_true, Bool.not_eq_true'] at h
    obtain ⟨⟨hq, hs⟩, hc⟩ := h
    subst hc
    have hatt' : ¬ (attempts - 1 ≤ 0) := not_le.mpr hatt
    have hatt2 : ¬ (attempts ≤ 1) := by omega
    simp [fetchDiffLoop, hq, hs, hatt2, callCount, backoffs, quotaWaitCount]

/-- The turn of the diff-fetch loop on the transient failure that uses the last attempt. -/
theorem fetchDiffLoop_transient_last (policy : Policy) (e : RawResult) (rest : List RawResult)
    (attempts : Int) (backoff : Duration) (h : e.isTransient policy = true)
    (hatt : attempts - 1 ≤ 0) :
    fetchDiffLoop policy (e :: rest) attempts backoff = ([Event.call], some []) := by
  cases e with
  | ok diff => simp [RawResult.isTransient] at h
  | err rresp now cancelled =>
    simp only [RawResult.isTransient, Bool.and_eq_true, Bool.not_eq_true'] at h
    obtain ⟨⟨hq, hs⟩, hc⟩ := h
    have hatt2 : attempts ≤ 1 := by omega
    simp [fetchDiffLoop, hq, hs, hatt2]

/-- A transient failure is not a quota wait. -/
theorem isTransient_not_quota (policy : Policy) (e : RawResult)
    (h : e.isTransient policy = true) : e.isQuotaWait policy = false := by
  cases e with
  | ok diff => rfl
  | err rresp now cancelled =>
    simp only [RawResult.isTransient, Bool.and_eq_true, Bool.not_eq_true'] at h
    simpa [RawResult.isQuotaWait] using h.1.1

/-- The diff-fetch loop on quota waits and transient failures, up to the
transient failure that uses the last attempt. -/
theorem fetchDiffLoop_gives_up (policy : Policy) (t : RawResult) (rest : List RawResult)
    (ht : t.isTransient policy = true) :
    ∀ (pre : List RawResult) (attempts : Int) (backoff : Duration),
      (∀ e ∈ pre, e.isQuotaWait policy = true ∨ e.isTransient policy = true) →
      ((pre.countP (RawResult.isTransient policy) : Nat) : Int) + 1 = attempts →
      (fetchDiffLoop policy (pre ++ t :: rest) attempts backoff).2 = some []
      ∧ callCount (fetchDiffLoop policy (pre ++ t :: rest) attempts backoff).1 = pre.length + 1
      ∧ (backoffs (fetchDiffLoop policy (pre ++ t :: rest) attempts backoff).1).length
          = pre.countP (RawResult.isTransient policy)
      ∧ quotaWaitCount (fetchDiffLoop policy (pre ++ t :: rest) attempts backoff).1
          = pre.countP (RawResult.isQuotaWait policy) := by
  intro pre
  induction pre with
  | nil =>
    intro attempts backoff _ hcount
    have hatt : attempts - 1 ≤ 0 := by simp at hcount; omega
    rw [List.nil_append, fetchDiffLoop_transient_last policy t rest attempts backoff ht hatt]
    simp [callCount, backoffs, quotaWaitCount]
  | cons e pre ih =>
    intro attempts backoff hkind hcount
    have hkind' : ∀ e ∈ pre, e.isQuotaWait policy = true ∨ e.isTransient policy = true :=
      fun x hx => hkind x (List.mem_cons_of_mem _ hx)
    rw [List.cons_append]
    by_cases htr : e.isTransient policy = true
    · have hnq := isTransient_not_quota policy e htr
      rw [List.countP_cons_of_pos _ _ htr] at hcount
      have hcount' : ((pre.countP (RawResult.isTransient policy) : Nat) : Int) + 1
          = attempts - 1 := by
        push_cast at hcount
        omega
      have hatt : 0 < attempts - 1 := by omega
      obtain ⟨h1, h2, h3, h4⟩ := ih (attempts - 1) (nextBackoff backoff) hkind' hcount'
      obtain ⟨s1, s2, s3, s4⟩ :=
        fetchDiffLoop_transient_step policy e (pre ++ t :: rest) attempts backoff htr hatt
      rw [List.countP_cons_of_pos _ _ htr, List.countP_cons_of_neg _ _ (by simp [hnq])]
      exact ⟨by rw [s1, h1], by rw [s2, h2, List.length_cons],
        by rw [s3, List.length_cons, h3], by rw [s4, h4]⟩
    · have hq : e.isQuotaWait policy = true := by
        rcases hkind e (List.mem_cons_self _ _) with h | h
        · exact h
        · exact absurd h htr
      rw [List.countP_cons_of_neg _ _ htr] at hcount
      obtain ⟨h1, h2, h3, h4⟩ := ih attempts backoff hkind' hcount
      obtain ⟨s1, s2, s3, s4⟩ :=
        fetchDiffLoop_quota_step policy e (pre ++ t :: rest) attempts backoff hq
      rw [List.countP_cons_of_neg _ _ htr, List.countP_cons_of_pos _ _ hq]
      exact ⟨by rw [s1, h1], by rw [s2, h2, List.length_cons], by rw [s3, h3],
        by rw [s4, h4]⟩

/-- C6, as amended: when the diff fetch of a pull request meets only quota
waits and transient failures (not quota, not skippable, not cancelled), the
fetch is given up with an empty diff at the transient failure number
`max(RetriesNonRate, 1)`: `GetRaw` is called `max(RetriesNonRate, 1)` times
plus once per quota wait, there are `max(RetriesNonRate, 1) - 1` backoff sleeps
(retries after a transient failure), and the quota waits consume none of
them. -/
theorem fetchDiff_attempts (policy : Policy) (pre : List RawResult) (t : RawResult)
    (rest : List RawResult)
    (hkind : ∀ e ∈ pre, e.isQuotaWait policy = true ∨ e.isTransient policy = true)
    (ht : t.isTransient policy = true)
    (hcount : ((pre.countP (RawResult.isTransient policy) : Nat) : Int) + 1
        = max policy.RetriesNonRate 1) :
    (fetchDiff policy (pre ++ t :: rest)).2 = some []
    ∧ callCount (fetchDiff policy (pre ++ t :: rest)).1 = pre.length + 1
    ∧ (callCount (fetchDiff policy (pre ++ t :: rest)).1 : Int)
        = max policy.RetriesNonRate 1 + pre.countP (RawResult.isQuotaWait policy)
    ∧ ((backoffs (fetchDiff policy (pre ++ t :: rest)).1).length : Int)
        = max policy.RetriesNonRate 1 - 1
    ∧ quotaWaitCount (fetchDiff policy (pre ++ t :: rest)).1
        = pre.countP (RawResult.isQuotaWait policy) := by
  have hmax : (if policy.RetriesNonRate < 1 then 1 else policy.RetriesNonRate)
      = max policy.RetriesNonRate 1 := by
    by_cases h : policy.RetriesNonRate < 1
    · rw [if_pos h, max_eq_right (le_of_lt h)]
    · rw [if_neg h, max_eq_left (not_lt.mp h)]
  have hlen : pre.length = pre.countP (RawResult.isTransient policy)
      + pre.countP (RawResult.isQuotaWait policy) := by
    clear hcount
    induction pre with
    | nil => rfl
    | cons e pre ih =>
      have ih' := ih (fun x hx => hkind x (List.mem_cons_of_mem _ hx))
      by_cases htr : e.isTransient policy = true
      · have hnq := isTransient_not_quota policy e htr
        rw [List.countP_cons_of_pos _ _ htr, List.countP_cons_of_neg _ _ (by simp [hnq]),
          List.length_cons, ih']
        omega
      · have hq : e.isQuotaWait policy = true := by
          rcases hkind e (List.mem_cons_self _ _) with h | h
          · exact h
          · exact absurd h htr
        rw [List.countP_cons_of_neg _ _ htr, List.countP_cons_of_pos _ _ hq,
          List.length_cons, ih']
        omega
  have h := fetchDiffLoop_gives_up policy t rest ht pre (max policy.RetriesNonRate 1)
    (1 * Second) hkind hcount
  simp only [fetchDiff, hmax]
  obtain ⟨h1, h2, h3, h4⟩ := h
  refine ⟨h1, h2, ?_, ?_, h4⟩
  · rw [h2, ← hcount, hlen]
    push_cast
    omega
  · rw [h3, ← hcount]
    omega

/-- C6, witness: with `RetriesNonRate = 3`, failures 500, 429 (waited on), 502
and a network error give four calls and an empty diff. -/
theorem fetchDiff_attempts_witness :
    (fetchDiff ⟨false, 0, 0, 0, 3⟩
      ([RawResult.err (some ⟨some ⟨500, ⟨[]⟩⟩, ⟨0⟩⟩) 0 false,
        RawResult.err (some ⟨some ⟨429, ⟨[("Retry-After", ["7"])]⟩⟩, ⟨0⟩⟩) 0 false,
        RawResult.err (some ⟨some ⟨502, ⟨[]⟩⟩, ⟨0⟩⟩) 0 false]
        ++ RawResult.err none 0 false :: [RawResult.ok [100, 105, 102, 102]])).2 = some []
    ∧ callCount (fetchDiff ⟨false, 0, 0, 0, 3⟩
      ([RawResult.err (some ⟨some ⟨500, ⟨[]⟩⟩, ⟨0⟩⟩) 0 false,
        RawResult.err (some ⟨some ⟨429, ⟨[("Retry-After", ["7"])]⟩⟩, ⟨0⟩⟩) 0 false,
        RawResult.err (some ⟨some ⟨502, ⟨[]⟩⟩, ⟨0⟩⟩) 0 false]
        ++ RawResult.err none 0 false :: [RawResult.ok [100, 105, 102, 102]])).1 = 4 :=
  have h := fetchDiff_attempts ⟨false, 0, 0, 0, 3⟩
    [RawResult.err (some ⟨some ⟨500, ⟨[]⟩⟩, ⟨0⟩⟩) 0 false,
      RawResult.err (some ⟨some ⟨429, ⟨[("Retry-After", ["7"])]⟩⟩, ⟨0⟩⟩) 0 false,
      RawResult.err (some ⟨some ⟨502, ⟨[]⟩⟩, ⟨0⟩⟩) 0 false]
    (RawResult.err none 0 false) [RawResult.ok [100, 105, 102, 102]]
    (by decide) (by decide) (by decide)
  ⟨h.1, h.2.1⟩

/-- C7, counterexample: with `RetriesNonRate = 10` and nine consecutive
transient failures the backoff sleeps are 1, 2, 4, 8, 16, 32, 64, 128 and 128
seconds; the last two exceed the 2 minutes (120 s). -/
theorem fetchDiff_backoff_above_two_minutes :
    backoffs (fetchDiff ⟨false, 0, 0, 0, 10⟩
        (List.replicate 9 (RawResult.err (some ⟨some ⟨500, ⟨[]⟩⟩, ⟨0⟩⟩) 0 false)
          ++ [RawResult.ok [100, 105, 102, 102]])).1
      = [1 * Second, 2 * Second, 4 * Second, 8 * Second, 16 * Second, 32 * Second,
          64 * Second, 128 * Second, 128 * Second]
    ∧ (2 * Minute : Duration) = 120 * Second
    ∧ (120 * Second : Duration) < 128 * Second := by
  decide

/-- The backoff sleeps of the loop are successive values of `nextBackoff`. -/
theorem backoffs_fetchDiffLoop (policy : Policy) :
    ∀ (script : List RawResult) (attempts : Int) (backoff : Duration),
      ∃ n, backoffs (fetchDiffLoop policy script attempts backoff).1
        = List.iterate nextBackoff backoff n := by
  intro script
  induction script with
  | nil => intro _ _; exact ⟨0, rfl⟩
  | cons e script ih =>
    intro attempts backoff
    cases e with
    | ok diff => exact ⟨0, rfl⟩
    | err rresp now cancelled =>
      simp only [fetchDiffLoop]
      split_ifs with h1 h2 h3
      · obtain ⟨n, hn⟩ := ih attempts backoff
        exact ⟨n, by simpa [backoffs] using hn⟩
      · exact ⟨0, rfl⟩
      · exact ⟨0, rfl⟩
      · obtain ⟨n, hn⟩ := ih (attempts - 1) (nextBackoff backoff)
        exact ⟨n + 1, by simp [backoffs, hn, List.iterate]⟩

/-- The backoff after `i` doublings from 1 second. -/
theorem nextBackoff_iterate (i : Nat) :
    nextBackoff^[i] (1 * Second) = min (2 ^ i) 128 * Second := by
  have hfix : nextBackoff (128 * Second) = 128 * Second := by decide
  have hge : ∀ k : Nat, nextBackoff^[7 + k] (1 * Second) = 128 * Second := by
    intro k
    induction k with
    | zero => decide
    | succ k ih =>
      rw [← Nat.add_assoc, Function.iterate_succ_apply', ih, hfix]
  by_cases h : i < 7
  · interval_cases i <;> decide
  · obtain ⟨k, rfl⟩ : ∃ k, i = 7 + k := ⟨i - 7, by omega⟩
    rw [hge k]
    have : (2 : Int) ^ 7 ≤ 2 ^ (7 + k) := pow_le_pow_right₀ (by norm_num) (by omega)
    have h128 : (128 : Int) ≤ 2 ^ (7 + k) := by simpa using this
    rw [min_eq_right h128]

/-- C7, as amended: for every policy and every sequence of answers, the backoff
sleeps of the diff fetch are, in order, `min(2^i, 128)` seconds for
`i = 0, 1, 2, …`: they start at 1 second, double after each sleep while below
2 minutes, and none is shorter than 1 second or longer than 128 seconds. -/
theorem fetchDiff_backoffs (policy : Policy) (script : List RawResult) :
    backoffs (fetchDiff policy script).1
      = (List.range (backoffs (fetchDiff policy script).1).length).map
          (fun i => min (2 ^ i) 128 * Second)
    ∧ (∀ d ∈ backoffs (fetchDiff policy script).1, 1 * Second ≤ d ∧ d ≤ 128 * Second) := by
  obtain ⟨n, hn⟩ := backoffs_fetchDiffLoop policy script
    (if policy.RetriesNonRate < 1 then 1 else policy.RetriesNonRate) (1 * Second)
  have hmap : List.iterate nextBackoff (1 * Second) n
      = (List.range n).map (fun i => min (2 ^ i) 128 * Second) := by
    apply List.ext_getElem
    · simp
    · intro i h1 h2
      rw [List.getElem_iterate, nextBackoff_iterate]
      simp
  have heq : backoffs (fetchDiff policy script).1
      = (List.range n).map (fun i => min (2 ^ i) 128 * Second) := by
    simp only [fetchDiff]
    rw [hn, hmap]
  have hlen : (backoffs (fetchDiff policy script).1).length = n := by
    rw [heq]; simp
  constructor
  · rw [hlen]; exact heq
  · intro d hd
    rw [heq] at hd
    simp only [List.mem_map, List.mem_range] at hd
    obtain ⟨i, _, rfl⟩ := hd
    have h1 : (1 : Int) ≤ 2 ^ i := one_le_pow₀ (by norm_num)
    have hS : (0 : Int) ≤ Second := by decide
    constructor
    · exact mul_le_mul_of_nonneg_right (le_min h1 (by norm_num)) hS
    · exact mul_le_mul_of_nonneg_right (min_le_right _ _) hS

/-- The window test of the code agrees with the window of the specification. -/
theorem inWindow_iff (since untl : Option Time) (created : Time) :
    inWindow since untl created = true ↔ specInWindow since untl created := by
  unfold inWindow specInWindow IsZero Before After
  cases since <;> cases untl <;> simp

/-- Counting one more creation time keeps `Tracks`. -/
theorem Tracks_snoc (count : Int) (first last : Time) (W : List Time) (c : Time)
    (h : Tracks count first last W) (hc : c ≠ 0) :
    Tracks (count + 1)
      (if (IsZero first || Before c first) = true then c else first)
      (if (IsZero last || After c last) = true then c else last) (W ++ [c]) := by
  obtain ⟨h1, h2, h3, h4⟩ := h
  refine ⟨by rw [h1]; simp, ?_, by simp, ?_⟩
  · intro t ht
    rcases List.mem_append.mp ht with h | h
    · exact h2 t h
    · simp at h; rw [h]; exact hc
  · intro _
    by_cases hW : W = []
    · obtain ⟨hf, hl⟩ := h3 hW
      subst hW
      simp [IsZero, hf, hl]
    · obtain ⟨hf, hl, hb⟩ := h4 hW
      have hf0 : first ≠ 0 := h2 _ hf
      have hl0 : last ≠ 0 := h2 _ hl
      have hfz : IsZero first = false := by simp [IsZero, hf0]
      have hlz : IsZero last = false := by simp [IsZero, hl0]
      simp only [hfz, hlz, Bool.false_or, Before, After, decide_eq_true_eq, gt_iff_lt]
      refine ⟨?_, ?_, ?_⟩
      · by_cases hlt : c < first
        · rw [if_pos hlt]; simp
        · rw [if_neg hlt]; exact List.mem_append_left _ hf
      · by_cases hgt : last < c
        · rw [if_pos hgt]; simp
        · rw [if_neg hgt]; exact List.mem_append_left _ hl
      · intro t ht
        have hfl : first ≤ last := (hb first hf).2
        rcases List.mem_append.mp ht with h | h
        · obtain ⟨ha, hb'⟩ := hb t h
          constructor
          · by_cases hlt : c < first
            · rw [if_pos hlt]; exact le_trans (le_of_lt hlt) ha
            · rw [if_neg hlt]; exact ha
          · by_cases hgt : last < c
            · rw [if_pos hgt]; exact le_trans hb' (le_of_lt hgt)
            · rw [if_neg hgt]; exact hb'
        · simp at h
          subst h
          constructor
          · by_cases hlt : t < first
            · rw [if_pos hlt]
            · rw [if_neg hlt]; exact not_lt.mp hlt
          · by_cases hgt : last < t
            · rw [if_pos hgt]
            · rw [if_neg hgt]; exact not_lt.mp hgt

/-- The loop body keeps `Tracks`. -/
theorem processPR_tracks (policy : Policy) (since untl : Option Time) (acc acc' : Acc)
    (item : PRItem) (W : List Time) (h : Tracks acc.count acc.first acc.last W)
    (hrun : processPR policy since untl acc item = some acc') :
    Tracks acc'.count acc'.first acc'.last
      (W ++ [item.pr.GetCreatedAt].filter (fun c => decide (specInWindow since untl c))) := by
  unfold processPR at hrun
  by_cases hw : inWindow since untl item.pr.GetCreatedAt = true
  · have hs := (inWindow_iff since untl _).mp hw
    simp only [hw, Bool.not_true, Bool.false_eq_true, if_false] at hrun
    cases hd : (fetchDiff policy item.raw).2 with
    | none => rw [hd] at hrun; exact Option.noConfusion hrun
    | some diff =>
      rw [hd] at hrun
      simp only [Option.some.injEq] at hrun
      subst hrun
      have hfil : [item.pr.GetCreatedAt].filter (fun c => decide (specInWindow since untl c))
          = [item.pr.GetCreatedAt] := by
        simp [List.filter, hs]
      rw [hfil]
      exact Tracks_snoc acc.count acc.first acc.last W _ h hs.1
  · have hs : ¬ specInWindow since untl item.pr.GetCreatedAt :=
      fun hsp => hw ((inWindow_iff since untl _).mpr hsp)
    have hw' : inWindow since untl item.pr.GetCreatedAt = false := by simpa using hw
    simp only [hw', Bool.not_false, if_true, Option.some.injEq] at hrun
    subst hrun
    have hfil : [item.pr.GetCreatedAt].filter (fun c => decide (specInWindow since untl c))
        = [] := by
      simp [List.filter, hs]
    rw [hfil, List.append_nil]
    exact h

/-- The loop over a page keeps `Tracks`. -/
theorem processPRs_tracks (policy : Policy) (since untl : Option Time) :
    ∀ (items : List PRItem) (acc acc' : Acc) (W : List Time),
      Tracks acc.count acc.first acc.last W →
      processPRs policy since untl items acc = some acc' →
      Tracks acc'.count acc'.first acc'.last
        (W ++ ((items.map PRItem.pr).map PullRequest.GetCreatedAt).filter
          (fun c => decide (specInWindow since untl c))) := by
  intro items
  induction items with
  | nil =>
    intro acc acc' W h hrun
    simp only [processPRs, Option.some.injEq] at hrun
    subst hrun
    simpa using h
  | cons item items ih =>
    intro acc acc' W h hrun
    simp only [processPRs] at hrun
    cases hp : processPR policy since untl acc item with
    | none => rw [hp] at hrun; exact Option.noConfusion hrun
    | some acc1 =>
      rw [hp] at hrun
      have h1 := processPR_tracks policy since untl acc acc1 item W h hp
      have h2 := ih acc1 acc' _ h1 hrun
      have hlist : W ++ (((item :: items).map PRItem.pr).map PullRequest.GetCreatedAt).filter
            (fun c => decide (specInWindow since untl c))
          = W ++ [item.pr.GetCreatedAt].filter (fun c => decide (specInWindow since untl c))
            ++ ((items.map PRItem.pr).map PullRequest.GetCreatedAt).filter
              (fun c => decide (specInWindow since untl c)) := by
        rw [List.append_assoc, ← List.filter_append]
        rfl
      rw [hlist]
      exact h2

/-- The loop over the pages keeps `Tracks`. -/
theorem listLoop_tracks (policy : Policy) (since untl : Option Time) :
    ∀ (script : List ListResult) (acc : Acc) (W : List Time) (stats : Stats) (sample' : Sample),
      Tracks acc.count acc.first acc.last W →
      listLoop policy since untl script acc = some (stats, sample') →
      stats.err = false →
      Tracks stats.prCount stats.first stats.last (W ++ windowTimes since untl script) := by
  intro script
  induction script with
  | nil =>
    intro acc W stats sample' _ hrun
    exact Option.noConfusion hrun
  | cons e script ih =>
    intro acc W stats sample' h hrun hok
    cases e with
    | err resp now =>
      simp only [listLoop] at hrun
      split_ifs at hrun with hq
      · have := ih acc W stats sample' h hrun hok
        simpa [windowTimes, listedPRs] using this
      · simp only [Option.some.injEq, Prod.mk.injEq] at hrun
        rw [← hrun.1] at hok
        exact Bool.noConfusion hok
    | ok prs NextPage =>
      simp only [listLoop] at hrun
      cases hp : processPRs policy since untl prs acc with
      | none => rw [hp] at hrun; exact Option.noConfusion hrun
      | some acc1 =>
        rw [hp] at hrun
        have h1 := processPRs_tracks policy since untl prs acc acc1 W h hp
        simp only at hrun
        split_ifs at hrun with hn
        · simp only [Option.some.injEq, Prod.mk.injEq] at hrun
          rw [← hrun.1]
          simpa [windowTimes, listedPRs, hn] using h1
        · have := ih acc1 _ stats sample' h1 hrun hok
          simpa [windowTimes, listedPRs, hn, List.append_assoc] using this

/-- C10: when `RepoPRDiffStats` returns without error, the count it returns is
the number of listed pull requests whose creation time is set and lies in the
window (`created ≥ since` if set, `created ≤ until` if set, bounds inclusive),
and the returned `first` and `last` are the least and the greatest creation
time among exactly those (both the zero time when there are none), whatever
the order of listing. -/
theorem RepoPRDiffStats_window (policy : Policy) (since untl : Option Time) (sample : Sample)
    (script : List ListResult) (stats : Stats) (sample' : Sample)
    (hrun : RepoPRDiffStats policy since untl sample script = some (stats, sample'))
    (hok : stats.err = false) :
    stats.prCount = (windowTimes since untl script).length
    ∧ (windowTimes since untl script = [] → stats.first = 0 ∧ stats.last = 0)
    ∧ (windowTimes since untl script ≠ [] →
        stats.first ∈ windowTimes since untl script
        ∧ stats.last ∈ windowTimes since untl script
        ∧ ∀ t ∈ windowTimes since untl script, stats.first ≤ t ∧ t ≤ stats.last) := by
  have h0 : Tracks (0 : Int) (0 : Time) (0 : Time) [] :=
    ⟨rfl, by simp, fun _ => ⟨rfl, rfl⟩, fun h => absurd rfl h⟩
  have h := listLoop_tracks policy since untl script ⟨0, 0, 0, 0, sample, 0, 0⟩ [] stats sample'
    h0 hrun hok
  rw [List.nil_append] at h
  exact ⟨h.1, h.2.2.1, h.2.2.2⟩

/-- C10, witness: a listing of two pages (with a quota wait in between) whose
pull requests are created at 20, 5, 15 and 30, with `since = 10` and no
`until`, returns count 3, `first = 15` and `last = 30`. -/
theorem RepoPRDiffStats_window_witness :
    RepoPRDiffStats ⟨false, 0, 0, 0, 1⟩ (some 10) none ⟨some 4, some []⟩
        [ListResult.ok
            [⟨⟨some 20, 1, 0⟩, [RawResult.ok [1, 2, 3]]⟩, ⟨⟨some 5, 2, 0⟩, []⟩,
              ⟨⟨some 15, 3, 0⟩, [RawResult.err none 0 false]⟩] 2,
          ListResult.err (some ⟨some ⟨429, ⟨[("Retry-After", ["7"])]⟩⟩, ⟨0⟩⟩) 0,
          ListResult.ok [⟨⟨some 30, 4, 0⟩, [RawResult.ok [9, 9]]⟩] 0]
      = some (⟨3, 5, 15, 30, false, 0, 0⟩, ⟨some 0, some [1, 2, 3, 9]⟩)
    ∧ windowTimes (some 10) none
        [ListResult.ok
            [⟨⟨some 20, 1, 0⟩, [RawResult.ok [1, 2, 3]]⟩, ⟨⟨some 5, 2, 0⟩, []⟩,
              ⟨⟨some 15, 3, 0⟩, [RawResult.err none 0 false]⟩] 2,
          ListResult.err (some ⟨some ⟨429, ⟨[("Retry-After", ["7"])]⟩⟩, ⟨0⟩⟩) 0,
          ListResult.ok [⟨⟨some 30, 4, 0⟩, [RawResult.ok [9, 9]]⟩] 0] = [20, 15, 30]
    ∧ (3 : Int) = (windowTimes (some 10) none
        [ListResult.ok
            [⟨⟨some 20, 1, 0⟩, [RawResult.ok [1, 2, 3]]⟩, ⟨⟨some 5, 2, 0⟩, []⟩,
              ⟨⟨some 15, 3, 0⟩, [RawResult.err none 0 false]⟩] 2,
          ListResult.err (some ⟨some ⟨429, ⟨[("Retry-After", ["7"])]⟩⟩, ⟨0⟩⟩) 0,
          ListResult.ok [⟨⟨some 30, 4, 0⟩, [RawResult.ok [9, 9]]⟩] 0]).length :=
  ⟨by decide, by decide,
    (RepoPRDiffStats_window ⟨false, 0, 0, 0, 1⟩ (some 10) none ⟨some 4, some []⟩
      [ListResult.ok
          [⟨⟨some 20, 1, 0⟩, [RawResult.ok [1, 2, 3]]⟩, ⟨⟨some 5, 2, 0⟩, []⟩,
            ⟨⟨some 15, 3, 0⟩, [RawResult.err none 0 false]⟩] 2,
        ListResult.err (some ⟨some ⟨429, ⟨[("Retry-After", ["7"])]⟩⟩, ⟨0⟩⟩) 0,
        ListResult.ok [⟨⟨some 30, 4, 0⟩, [RawResult.ok [9, 9]]⟩] 0]
      ⟨3, 5, 15, 30, false, 0, 0⟩ ⟨some 0, some [1, 2, 3, 9]⟩ (by decide) rfl).1⟩

/-- The value of `diff` after the fetch loop, by the way the loop is left. -/
theorem fetchDiffLoop_end (policy : Policy) :
    ∀ (script : List RawResult) (attempts : Int) (backoff : Duration),
      (fetchLoopSkips policy script attempts = none →
        (fetchDiffLoop policy script attempts backoff).2 = none)
      ∧ (fetchLoopSkips policy script attempts = some true →
        (fetchDiffLoop policy script attempts backoff).2 = some [])
      ∧ (fetchLoopSkips policy script attempts = some false →
        ∃ diff, (fetchDiffLoop policy script attempts backoff).2 = some diff
          ∧ RawResult.ok diff ∈ script) := by
  intro script
  induction script with
  | nil => intro attempts backoff; simp [fetchLoopSkips, fetchDiffLoop]
  | cons e script ih =>
    intro attempts backoff
    cases e with
    | ok diff => simp [fetchLoopSkips, fetchDiffLoop]
    | err rresp now cancelled =>
      simp only [fetchLoopSkips, fetchDiffLoop]
      split_ifs with h1 h2 h3
      · obtain ⟨i1, i2, i3⟩ := ih attempts backoff
        refine ⟨i1, i2, fun h => ?_⟩
        obtain ⟨diff, hd, hm⟩ := i3 h
        exact ⟨diff, hd, List.mem_cons_of_mem _ hm⟩
      · simp
      · simp
      · obtain ⟨i1, i2, i3⟩ := ih (attempts - 1) (nextBackoff backoff)
        refine ⟨i1, i2, fun h => ?_⟩
        obtain ⟨diff, hd, hm⟩ := i3 h
        exact ⟨diff, hd, List.mem_cons_of_mem _ hm⟩

/-- When the loop is left after a call that succeeded, `diff` is the diff of
the first successful answer of the API. -/
theorem fetchDiffLoop_firstOk (policy : Policy) :
    ∀ (script : List RawResult) (attempts : Int) (backoff : Duration),
      fetchLoopSkips policy script attempts = some false →
      (fetchDiffLoop policy script attempts backoff).2 = firstOk script := by
  intro script
  induction script with
  | nil => intro attempts backoff h; simp [fetchLoopSkips] at h
  | cons e script ih =>
    intro attempts backoff
    cases e with
    | ok diff => intro _; rfl
    | err rresp now cancelled =>
      simp only [fetchLoopSkips, fetchDiffLoop, firstOk]
      split_ifs with h1 h2 h3
      · exact ih attempts backoff
      · intro h; exact absurd h (by simp)
      · intro h; exact absurd h (by simp)
      · exact ih (attempts - 1) (nextBackoff backoff)

/-- Quota waits and transient failures that leave attempts only move the loop
on: it goes on with the rest of the answers and the attempts that are left. -/
theorem fetchLoop_prefix (policy : Policy) (tail : List RawResult) :
    ∀ (pre : List RawResult) (attempts : Int) (backoff : Duration),
      (∀ e ∈ pre, e.isQuotaWait policy = true ∨ e.isTransient policy = true) →
      ((pre.countP (RawResult.isTransient policy) : Nat) : Int) < attempts →
      fetchLoopSkips policy (pre ++ tail) attempts
          = fetchLoopSkips policy tail (attempts - (pre.countP (RawResult.isTransient policy) : Nat))
      ∧ (∃ backoff', (fetchDiffLoop policy (pre ++ tail) attempts backoff).2
          = (fetchDiffLoop policy tail
              (attempts - (pre.countP (RawResult.isTransient policy) : Nat)) backoff').2)
      ∧ firstOk (pre ++ tail) = firstOk tail := by
  intro pre
  induction pre with
  | nil => intro attempts backoff _ _; exact ⟨by simp, ⟨backoff, by simp⟩, rfl⟩
  | cons e pre ih =>
    intro attempts backoff hkind hcount
    have hkind' : ∀ e ∈ pre, e.isQuotaWait policy = true ∨ e.isTransient policy = true :=
      fun x hx => hkind x (List.mem_cons_of_mem _ hx)
    cases e with
    | ok diff =>
      have := hkind (RawResult.ok diff) (List.mem_cons_self _ _)
      simp [RawResult.isTransient, RawResult.isQuotaWait] at this
    | err rresp now cancelled =>
      by_cases htr : RawResult.isTransient policy (RawResult.err rresp now cancelled) = true
      · rw [List.countP_cons_of_pos _ _ htr] at hcount ⊢
        have htr' := htr
        simp only [RawResult.isTransient, Bool.and_eq_true, Bool.not_eq_true'] at htr'
        obtain ⟨⟨hq, hs⟩, hc⟩ := htr'
        have hcount' : ((pre.countP (RawResult.isTransient policy) : Nat) : Int)
            < attempts - 1 := by push_cast at hcount; omega
        have hatt : ¬ (attempts ≤ 1) := by omega
        obtain ⟨i1, ⟨b', i2⟩, i3⟩ := ih (attempts - 1) (nextBackoff backoff) hkind' hcount'
        have harith : attempts - 1 - ((pre.countP (RawResult.isTransient policy) : Nat) : Int)
            = attempts - ((pre.countP (RawResult.isTransient policy) + 1 : Nat) : Int) := by
          push_cast; ring
        rw [harith] at i1 i2
        refine ⟨?_, ⟨b', ?_⟩, ?_⟩
        · simpa [fetchLoopSkips, hq, hs, hc, hatt] using i1
        · simpa [fetchDiffLoop, hq, hs, hc, hatt] using i2
        · simpa [firstOk] using i3
      · have hq : (rresp.isSome && (waitIfRateLimited policy now rresp).retry) = true := by
          rcases hkind _ (List.mem_cons_self _ _) with h | h
          · simpa [RawResult.isQuotaWait] using h
          · exact absurd h htr
        rw [List.countP_cons_of_neg _ _ htr] at hcount ⊢
        obtain ⟨i1, ⟨b', i2⟩, i3⟩ := ih attempts backoff hkind' hcount
        refine ⟨?_, ⟨b', ?_⟩, ?_⟩
        · simpa [fetchLoopSkips, hq] using i1
        · simpa [fetchDiffLoop, hq] using i2
        · simpa [firstOk] using i3

/-- An empty diff leaves the sample as it is. -/
theorem Sample_add_nil (s : Sample) : s.add [] = s := by
  have hstep : ∀ (b : Int) (buf : Bytes), sampleStep b buf [] = (b, buf) := by
    intro b buf
    by_cases hb : 0 < b
    · have hn : ¬ (b < 0) := by omega
      simp [sampleStep, hb, hn]
    · simp [sampleStep, hb]
  obtain ⟨b, buf⟩ := s
  cases b <;> cases buf <;> simp [Sample.add, hstep]

/-- The length of `diff` after the fetch loop is the length of the diff
fetched with success, and 0 after a skip. -/
theorem diffLen_eq (policy : Policy) (item : PRItem) :
    diffLen policy item
      = (([item].filterMap (fun item =>
          if fetchSkips policy item.raw = some false then (fetchDiff policy item.raw).2
          else none)).map (fun diff => (diff.length : Int))).sum := by
  obtain ⟨i1, i2, i3⟩ := fetchDiffLoop_end policy item.raw
    (if policy.RetriesNonRate < 1 then 1 else policy.RetriesNonRate) (1 * Second)
  have hf : fetchDiff policy item.raw = fetchDiffLoop policy item.raw
      (if policy.RetriesNonRate < 1 then 1 else policy.RetriesNonRate) (1 * Second) := rfl
  have hs : fetchSkips policy item.raw = fetchLoopSkips policy item.raw
      (if policy.RetriesNonRate < 1 then 1 else policy.RetriesNonRate) := rfl
  rw [← hf, ← hs] at i1 i2 i3
  unfold diffLen
  cases hk : fetchSkips policy item.raw with
  | none => simp [List.filterMap, hk, i1 hk]
  | some b =>
    cases b with
    | true => simp [List.filterMap, hk, i2 hk]
    | false =>
      obtain ⟨diff, hd, _⟩ := i3 hk
      simp [List.filterMap, hk, hd]

/-- Summing `diffLen` over pull requests gives the total length of the diffs
fetched with success. -/
theorem sum_diffLen (policy : Policy) (items : List PRItem) :
    (items.map (diffLen policy)).sum
      = ((items.filterMap (fun item =>
          if fetchSkips policy item.raw = some false then (fetchDiff policy item.raw).2
          else none)).map (fun diff => (diff.length : Int))).sum := by
  induction items with
  | nil => rfl
  | cons item items ih =>
    have h1 := diffLen_eq policy item
    have happ : item :: items = [item] ++ items := rfl
    rw [List.map_cons, List.sum_cons, ih, h1, happ, List.filterMap_append, List.map_append,
      List.sum_append]

/-- The loop body on a pull request: what it adds to `count` and `total`. -/
theorem processPR_totals (policy : Policy) (since untl : Option Time) (acc acc' : Acc)
    (item : PRItem) (hrun : processPR policy since untl acc item = some acc') :
    acc'.count = acc.count
        + (([item].filter (fun item =>
            decide (specInWindow since untl item.pr.GetCreatedAt))).length : Int)
    ∧ acc'.total = acc.total
        + (([item].filter (fun item =>
            decide (specInWindow since untl item.pr.GetCreatedAt))).map (diffLen policy)).sum := by
  unfold processPR at hrun
  by_cases hw : inWindow since untl item.pr.GetCreatedAt = true
  · have hs := (inWindow_iff since untl _).mp hw
    simp only [hw, Bool.not_true, Bool.false_eq_true, if_false] at hrun
    cases hd : (fetchDiff policy item.raw).2 with
    | none => rw [hd] at hrun; exact Option.noConfusion hrun
    | some diff =>
      rw [hd] at hrun
      simp only [Option.some.injEq] at hrun
      subst hrun
      simp [List.filter, hs, diffLen, hd]
  · have hs : ¬ specInWindow since untl item.pr.GetCreatedAt :=
      fun hsp => hw ((inWindow_iff since untl _).mpr hsp)
    have hw' : inWindow since untl item.pr.GetCreatedAt = false := by simpa using hw
    simp only [hw', Bool.not_false, if_true, Option.some.injEq] at hrun
    subst hrun
    simp [List.filter, hs]

/-- The loop over a page: what it adds to `count` and `total`. -/
theorem processPRs_totals (policy : Policy) (since untl : Option Time) :
    ∀ (items : List PRItem) (acc acc' : Acc),
      processPRs policy since untl items acc = some acc' →
      acc'.count = acc.count
          + ((items.filter (fun item =>
              decide (specInWindow since untl item.pr.GetCreatedAt))).length : Int)
      ∧ acc'.total = acc.total
          + ((items.filter (fun item =>
              decide (specInWindow since untl item.pr.GetCreatedAt))).map
                (diffLen policy)).sum := by
  intro items
  induction items with
  | nil =>
    intro acc acc' hrun
    simp only [processPRs, Option.some.injEq] at hrun
    subst hrun
    simp
  | cons item items ih =>
    intro acc acc' hrun
    simp only [processPRs] at hrun
    cases hp : processPR policy since untl acc item with
    | none => rw [hp] at hrun; exact Option.noConfusion hrun
    | some acc1 =>
      rw [hp] at hrun
      obtain ⟨h1, h2⟩ := processPR_totals policy since untl acc acc1 item hp
      obtain ⟨h3, h4⟩ := ih acc1 acc' hrun
      have happ : item :: items = [item] ++ items := rfl
      rw [happ, List.filter_append, List.length_append, List.map_append, List.sum_append,
        h3, h4, h1, h2]
      push_cast
      constructor <;> ring

/-- The loop over the pages: what a successful return adds to `count` and
`total`. -/
theorem listLoop_totals (policy : Policy) (since untl : Option Time) :
    ∀ (script : List ListResult) (acc : Acc) (stats : Stats) (sample' : Sample),
      listLoop policy since untl script acc = some (stats, sample') →
      stats.err = false →
      stats.prCount = acc.count + ((windowItems since untl script).length : Int)
      ∧ stats.totalDiffChars = acc.total
          + ((windowItems since untl script).map (diffLen policy)).sum := by
  intro script
  induction script with
  | nil =>
    intro acc stats sample' hrun
    exact Option.noConfusion hrun
  | cons e script ih =>
    intro acc stats sample' hrun hok
    cases e with
    | err resp now =>
      simp only [listLoop] at hrun
      split_ifs at hrun with hq
      · have := ih acc stats sample' hrun hok
        simpa [windowItems, listedItems] using this
      · simp only [Option.some.injEq, Prod.mk.injEq] at hrun
        rw [← hrun.1] at hok
        exact Bool.noConfusion hok
    | ok prs NextPage =>
      simp only [listLoop] at hrun
      cases hp : processPRs policy since untl prs acc with
      | none => rw [hp] at hrun; exact Option.noConfusion hrun
      | some acc1 =>
        rw [hp] at hrun
        obtain ⟨h1, h2⟩ := processPRs_totals policy since untl prs acc acc1 hp
        simp only at hrun
        split_ifs at hrun with hn
        · simp only [Option.some.injEq, Prod.mk.injEq] at hrun
          rw [← hrun.1]
          simp [windowItems, listedItems, hn, h1, h2]
        · obtain ⟨h3, h4⟩ := ih acc1 stats sample' hrun hok
          rw [h3, h4, h1, h2]
          simp only [windowItems, listedItems, hn, if_false, List.filter_append,
            List.length_append, List.map_append, List.sum_append]
          push_cast
          constructor <;> ring

/-- An error of `RepoPRDiffStats` comes from a `List` call that failed and was
not waited on. -/
theorem listLoop_error (policy : Policy) (since untl : Option Time) :
    ∀ (script : List ListResult) (acc : Acc) (stats : Stats) (sample' : Sample),
      listLoop policy since untl script acc = some (stats, sample') →
      stats.err = true →
      ∃ resp now, ListResult.err resp now ∈ script
        ∧ (resp.isSome && (waitIfRateLimited policy now resp).retry) = false := by
  intro script
  induction script with
  | nil =>
    intro acc stats sample' hrun
    exact Option.noConfusion hrun
  | cons e script ih =>
    intro acc stats sample' hrun herr
    cases e with
    | err resp now =>
      simp only [listLoop] at hrun
      split_ifs at hrun with hq
      · obtain ⟨r, n, hm, hw⟩ := ih acc stats sample' hrun herr
        exact ⟨r, n, List.mem_cons_of_mem _ hm, hw⟩
      · exact ⟨resp, now, List.mem_cons_self _ _, by simpa using hq⟩
    | ok prs NextPage =>
      simp only [listLoop] at hrun
      cases hp : processPRs policy since untl prs acc with
      | none => rw [hp] at hrun; exact Option.noConfusion hrun
      | some acc1 =>
        rw [hp] at hrun
        simp only at hrun
        split_ifs at hrun with hn
        · simp only [Option.some.injEq, Prod.mk.injEq] at hrun
          rw [← hrun.1] at herr
          exact Bool.noConfusion herr
        · obtain ⟨r, n, hm, hw⟩ := ih acc1 stats sample' hrun herr
          exact ⟨r, n, List.mem_cons_of_mem _ hm, hw⟩

/-- The diff kept after a fetch that does not end in a skip is the first
successful answer of the API. -/
theorem fetched_firstOk (policy : Policy) :
    (fun item : PRItem =>
        if fetchSkips policy item.raw = some false then (fetchDiff policy item.raw).2 else none)
      = (fun item : PRItem =>
        if fetchSkips policy item.raw = some false then firstOk item.raw else none) := by
  funext item
  by_cases h : fetchSkips policy item.raw = some false
  · rw [if_pos h, if_pos h]
    exact fetchDiffLoop_firstOk policy item.raw _ (1 * Second) h
  · rw [if_neg h, if_neg h]

/-- C11: when `RepoPRDiffStats` returns without error, the count it returns is
the number of in-window pull requests whatever the outcome of their diff
fetches, and the total it returns is the sum of the byte lengths of the diffs
fetched with success, each taken from the answer of the API. An error of
`RepoPRDiffStats` always comes from a failed `List` call, never from a diff
fetch. An in-window pull request whose diff fetch ends in a skip is counted,
adds 0 to the total, leaves the sample budget and buffer as they are and lets
the loop go on. In terms of the answers of the API, after quota waits and
transient failures that leave attempts: a successful answer is a fetch with
success of the diff it carries; a skippable status is a skip; and the
transient failure that uses the last attempt is a skip. -/
theorem RepoPRDiffStats_skipped_diffs (policy : Policy) (since untl : Option Time)
    (sample : Sample) (script : List ListResult) (stats : Stats) (sample' : Sample)
    (hrun : RepoPRDiffStats policy since untl sample script = some (stats, sample')) :
    (stats.err = false →
      stats.prCount = ((windowItems since untl script).length : Int)
      ∧ stats.totalDiffChars
          = ((fetchedDiffs policy since untl script).map
              (fun diff => (diff.length : Int))).sum)
    ∧ (stats.err = true →
        ∃ resp now, ListResult.err resp now ∈ script
          ∧ (resp.isSome && (waitIfRateLimited policy now resp).retry) = false)
    ∧ (∀ (acc : Acc) (item : PRItem),
        specInWindow since untl item.pr.GetCreatedAt →
        fetchSkips policy item.raw = some true →
        ∃ acc', processPR policy since untl acc item = some acc'
          ∧ acc'.count = acc.count + 1 ∧ acc'.total = acc.total
          ∧ acc'.sample = acc.sample)
    ∧ (∀ (pre rest : List RawResult) (diff : Bytes),
        (∀ e ∈ pre, e.isQuotaWait policy = true ∨ e.isTransient policy = true) →
        ((pre.countP (RawResult.isTransient policy) : Nat) : Int)
          < max policy.RetriesNonRate 1 →
        fetchSkips policy (pre ++ RawResult.ok diff :: rest) = some false
        ∧ firstOk (pre ++ RawResult.ok diff :: rest) = some diff
        ∧ (fetchDiff policy (pre ++ RawResult.ok diff :: rest)).2 = some diff)
    ∧ (∀ (pre rest : List RawResult) (rresp : Option Response) (now : Time) (cancelled : Bool),
        (∀ e ∈ pre, e.isQuotaWait policy = true ∨ e.isTransient policy = true) →
        ((pre.countP (RawResult.isTransient policy) : Nat) : Int)
          < max policy.RetriesNonRate 1 →
        (rresp.isSome && (waitIfRateLimited policy now rresp).retry) = false →
        isSkippableClientError rresp = true →
        fetchSkips policy (pre ++ RawResult.err rresp now cancelled :: rest) = some true)
    ∧ (∀ (pre rest : List RawResult) (t : RawResult),
        (∀ e ∈ pre, e.isQuotaWait policy = true ∨ e.isTransient policy = true) →
        t.isTransient policy = true →
        ((pre.countP (RawResult.isTransient policy) : Nat) : Int) + 1
          = max policy.RetriesNonRate 1 →
        fetchSkips policy (pre ++ t :: rest) = some true) := by
  have hmax : (if policy.RetriesNonRate < 1 then 1 else policy.RetriesNonRate)
      = max policy.RetriesNonRate 1 := by
    by_cases h : policy.RetriesNonRate < 1
    · rw [if_pos h, max_eq_right (le_of_lt h)]
    · rw [if_neg h, max_eq_left (not_lt.mp h)]
  refine ⟨?_, ?_, ?_, ?_, ?_, ?_⟩
  · intro hok
    obtain ⟨h1, h2⟩ := listLoop_totals policy since untl script ⟨0, 0, 0, 0, sample, 0, 0⟩ stats
      sample' hrun hok
    refine ⟨by simpa using h1, ?_⟩
    rw [h2, sum_diffLen, fetched_firstOk]
    simp [fetchedDiffs]
  · intro herr
    exact listLoop_error policy since untl script ⟨0, 0, 0, 0, sample, 0, 0⟩ stats sample' hrun
      herr
  · intro acc item hs hskip
    have hw := (inWindow_iff since untl _).mpr hs
    have hd : (fetchDiff policy item.raw).2 = some [] :=
      (fetchDiffLoop_end policy item.raw
        (if policy.RetriesNonRate < 1 then 1 else policy.RetriesNonRate) (1 * Second)).2.1 hskip
    have hp : processPR policy since untl acc item
        = some ⟨acc.count + 1, acc.total + ((([] : Bytes).length : Nat) : Int),
            (if (IsZero acc.first || Before item.pr.GetCreatedAt acc.first) = true
              then item.pr.GetCreatedAt else acc.first),
            (if (IsZero acc.last || After item.pr.GetCreatedAt acc.last) = true
              then item.pr.GetCreatedAt else acc.last),
            acc.sample.add [],
            (if (IsZero acc.first || Before item.pr.GetCreatedAt acc.first) = true
              then item.pr.GetCreatedAtOffset else acc.firstOffset),
            (if (IsZero acc.last || After item.pr.GetCreatedAt acc.last) = true
              then item.pr.GetCreatedAtOffset else acc.lastOffset)⟩ := by
      simp only [processPR, hw, Bool.not_true, Bool.false_eq_true, if_false, hd]
    exact ⟨_, hp, rfl, by simp, Sample_add_nil acc.sample⟩
  · intro pre rest diff hkind hcount
    obtain ⟨i1, ⟨b', i2⟩, i3⟩ := fetchLoop_prefix policy (RawResult.ok diff :: rest) pre
      (max policy.RetriesNonRate 1) (1 * Second) hkind hcount
    simp only [fetchSkips, fetchDiff, hmax]
    exact ⟨by rw [i1]; rfl, by rw [i3]; rfl, by rw [i2]; rfl⟩
  · intro pre rest rresp now cancelled hkind hcount hq hs
    obtain ⟨i1, _, _⟩ := fetchLoop_prefix policy (RawResult.err rresp now cancelled :: rest) pre
      (max policy.RetriesNonRate 1) (1 * Second) hkind hcount
    simp only [fetchSkips, hmax]
    rw [i1]
    simp [fetchLoopSkips, hq, hs]
  · intro pre rest t hkind ht hcount
    have hlt : ((pre.countP (RawResult.isTransient policy) : Nat) : Int)
        < max policy.RetriesNonRate 1 := by omega
    obtain ⟨i1, _, _⟩ := fetchLoop_prefix policy (t :: rest) pre
      (max policy.RetriesNonRate 1) (1 * Second) hkind hlt
    simp only [fetchSkips, hmax]
    rw [i1]
    cases t with
    | ok diff => simp [RawResult.isTransient] at ht
    | err rresp now cancelled =>
      simp only [RawResult.isTransient, Bool.and_eq_true, Bool.not_eq_true'] at ht
      obtain ⟨⟨hq, hs⟩, hc⟩ := ht
      have hatt : max policy.RetriesNonRate 1
          - ((pre.countP (RawResult.isTransient policy) : Nat) : Int) ≤ 1 := by omega
      simp [fetchLoopSkips, hq, hs, hatt]

/-- C11, witness: with `RetriesNonRate = 3`, a page of four in-window pull
requests whose diff fetches end with a diff of 3 bytes, a skip on 404, a diff
of 2 bytes fetched after a transient failure and a quota wait, and a skip
after three transient failures, returns count 4 and total 5 without error; the
diffs fetched with success are the two the API sent, and the sample holds
their 5 bytes. -/
theorem RepoPRDiffStats_skipped_diffs_witness :
    RepoPRDiffStats ⟨false, 0, 0, 0, 3⟩ none none ⟨some 10, some []⟩
        [ListResult.ok
          [⟨⟨some 20, 1, 0⟩, [RawResult.ok [1, 2, 3]]⟩,
            ⟨⟨some 25, 2, 0⟩, [RawResult.err (some ⟨some ⟨404, ⟨[]⟩⟩, ⟨0⟩⟩) 0 false]⟩,
            ⟨⟨some 30, 3, 0⟩, [RawResult.err (some ⟨some ⟨500, ⟨[]⟩⟩, ⟨0⟩⟩) 0 false,
              RawResult.err (some ⟨some ⟨429, ⟨[("Retry-After", ["7"])]⟩⟩, ⟨0⟩⟩) 0 false,
              RawResult.ok [7, 7]]⟩,
            ⟨⟨some 35, 4, 0⟩, [RawResult.err (some ⟨some ⟨500, ⟨[]⟩⟩, ⟨0⟩⟩) 0 false,
              RawResult.err (some ⟨some ⟨502, ⟨[]⟩⟩, ⟨0⟩⟩) 0 false,
              RawResult.err none 0 false, RawResult.ok [5]]⟩] 0]
      = some (⟨4, 5, 20, 35, false, 0, 0⟩, ⟨some 5, some [1, 2, 3, 7, 7]⟩)
    ∧ fetchedDiffs ⟨false, 0, 0, 0, 3⟩ none none
        [ListResult.ok
          [⟨⟨some 20, 1, 0⟩, [RawResult.ok [1, 2, 3]]⟩,
            ⟨⟨some 25, 2, 0⟩, [RawResult.err (some ⟨some ⟨404, ⟨[]⟩⟩, ⟨0⟩⟩) 0 false]⟩,
            ⟨⟨some 30, 3, 0⟩, [RawResult.err (some ⟨some ⟨500, ⟨[]⟩⟩, ⟨0⟩⟩) 0 false,
              RawResult.err (some ⟨some ⟨429, ⟨[("Retry-After", ["7"])]⟩⟩, ⟨0⟩⟩) 0 false,
              RawResult.ok [7, 7]]⟩,
            ⟨⟨some 35, 4, 0⟩, [RawResult.err (some ⟨some ⟨500, ⟨[]⟩⟩, ⟨0⟩⟩) 0 false,
              RawResult.err (some ⟨some ⟨502, ⟨[]⟩⟩, ⟨0⟩⟩) 0 false,
              RawResult.err none 0 false, RawResult.ok [5]]⟩] 0] = [[1, 2, 3], [7, 7]]
    ∧ (5 : Int) = ((fetchedDiffs ⟨false, 0, 0, 0, 3⟩ none none
        [ListResult.ok
          [⟨⟨some 20, 1, 0⟩, [RawResult.ok [1, 2, 3]]⟩,
            ⟨⟨some 25, 2, 0⟩, [RawResult.err (some ⟨some ⟨404, ⟨[]⟩⟩, ⟨0⟩⟩) 0 false]⟩,
            ⟨⟨some 30, 3, 0⟩, [RawResult.err (some ⟨some ⟨500, ⟨[]⟩⟩, ⟨0⟩⟩) 0 false,
              RawResult.err (some ⟨some ⟨429, ⟨[("Retry-After", ["7"])]⟩⟩, ⟨0⟩⟩) 0 false,
              RawResult.ok [7, 7]]⟩,
            ⟨⟨some 35, 4, 0⟩, [RawResult.err (some ⟨some ⟨500, ⟨[]⟩⟩, ⟨0⟩⟩) 0 false,
              RawResult.err (some ⟨some ⟨502, ⟨[]⟩⟩, ⟨0⟩⟩) 0 false,
              RawResult.err none 0 false, RawResult.ok [5]]⟩] 0]).map (fun diff => (diff.length : Int))).sum :=
  ⟨by decide, by decide,
    ((RepoPRDiffStats_skipped_diffs ⟨false, 0, 0, 0, 3⟩ none none ⟨some 10, some []⟩
      [ListResult.ok
          [⟨⟨some 20, 1, 0⟩, [RawResult.ok [1, 2, 3]]⟩,
            ⟨⟨some 25, 2, 0⟩, [RawResult.err (some ⟨some ⟨404, ⟨[]⟩⟩, ⟨0⟩⟩) 0 false]⟩,
            ⟨⟨some 30, 3, 0⟩, [RawResult.err (some ⟨some ⟨500, ⟨[]⟩⟩, ⟨0⟩⟩) 0 false,
              RawResult.err (some ⟨some ⟨429, ⟨[("Retry-After", ["7"])]⟩⟩, ⟨0⟩⟩) 0 false,
              RawResult.ok [7, 7]]⟩,
            ⟨⟨some 35, 4, 0⟩, [RawResult.err (some ⟨some ⟨500, ⟨[]⟩⟩, ⟨0⟩⟩) 0 false,
              RawResult.err (some ⟨some ⟨502, ⟨[]⟩⟩, ⟨0⟩⟩) 0 false,
              RawResult.err none 0 false, RawResult.ok [5]]⟩] 0]
      ⟨4, 5, 20, 35, false, 0, 0⟩ ⟨some 5, some [1, 2, 3, 7, 7]⟩ (by decide)).1 rfl).2⟩

end Api

namespace Main

open Api

/-- The loop body does the same to `count`, `total`, `first` and `last`
whatever the sample. -/
theorem processPR_core (policy : Policy) (since untl : Option Time) (a b : Acc)
    (item : PRItem) (h : a.core = b.core) :
    (processPR policy since untl a item).map Acc.core
      = (processPR policy since untl b item).map Acc.core := by
  simp only [Acc.core, Prod.mk.injEq] at h
  obtain ⟨h1, h2, h3, h4⟩ := h
  unfold processPR
  by_cases hw : inWindow since untl item.pr.GetCreatedAt = true
  · simp only [hw, Bool.not_true, Bool.false_eq_true, if_false]
    cases (fetchDiff policy item.raw).2 with
    | none => rfl
    | some diff => simp [Acc.core, h1, h2, h3, h4]
  · have hw' : inWindow since untl item.pr.GetCreatedAt = false := by simpa using hw
    simp [hw', Acc.core, h1, h2, h3, h4]

/-- The loop over a page does the same to `count`, `total`, `first` and `last`
whatever the sample. -/
theorem processPRs_core (policy : Policy) (since untl : Option Time) :
    ∀ (items : List PRItem) (a b : Acc), a.core = b.core →
      (processPRs policy since untl items a).map Acc.core
        = (processPRs policy since untl items b).map Acc.core := by
  intro items
  induction items with
  | nil => intro a b h; simpa [processPRs] using h
  | cons item items ih =>
    intro a b h
    have hstep := processPR_core policy since untl a b item h
    simp only [processPRs]
    cases ha : processPR policy since untl a item with
    | none =>
      rw [ha] at hstep
      cases hb : processPR policy since untl b item with
      | none => rfl
      | some b1 => rw [hb] at hstep; exact Option.noConfusion hstep
    | some a1 =>
      rw [ha] at hstep
      cases hb : processPR policy since untl b item with
      | none => rw [hb] at hstep; exact Option.noConfusion hstep
      | some b1 =>
        rw [hb] at hstep
        simp only [Option.map_some', Option.some.injEq] at hstep
        exact ih a1 b1 hstep

/-- The values `RepoPRDiffStats` returns do not depend on the sample. -/
theorem listLoop_core (policy : Policy) (since untl : Option Time) :
    ∀ (script : List ListResult) (a b : Acc), a.core = b.core →
      (listLoop policy since untl script a).map Prod.fst
        = (listLoop policy since untl script b).map Prod.fst := by
  intro script
  induction script with
  | nil => intro a b _; rfl
  | cons e script ih =>
    intro a b h
    cases e with
    | err resp now =>
      simp only [listLoop]
      split_ifs with hq
      · exact ih a b h
      · rfl
    | ok prs NextPage =>
      have hstep := processPRs_core policy since untl prs a b h
      simp only [listLoop]
      cases ha : processPRs policy since untl prs a with
      | none =>
        rw [ha] at hstep
        cases hb : processPRs policy since untl prs b with
        | none => rfl
        | some b1 => rw [hb] at hstep; exact Option.noConfusion hstep
      | some a1 =>
        rw [ha] at hstep
        cases hb : processPRs policy since untl prs b with
        | none => rw [hb] at hstep; exact Option.noConfusion hstep
        | some b1 =>
          rw [hb] at hstep
          simp only [Option.map_some', Option.some.injEq] at hstep
          simp only
          split_ifs with hn
          · simp only [Acc.core, Prod.mk.injEq] at hstep
            obtain ⟨h1, h2, h3, h4⟩ := hstep
            simp [h1, h2, h3, h4]
          · exact ih a1 b1 hstep

/-- The body of the loop of `main` does the same to the summaries, the totals
and the global first and last whatever the sample. -/
theorem aggregateRepo_core {F : Type} (ext : Externals F) (policy : Policy)
    (since untl : Option Time) (st st' : Totals F) (run : RepoRun) (h : st.core = st'.core) :
    (aggregateRepo ext policy since untl st run).map Totals.core
      = (aggregateRepo ext policy since untl st' run).map Totals.core := by
  obtain ⟨a1, a2, a3, a4, a5, sa, a6, a7⟩ := st
  obtain ⟨b1, b2, b3, b4, b5, sb, b6, b7⟩ := st'
  simp only [Totals.core, Prod.mk.injEq] at h
  obtain ⟨rfl, rfl, rfl, rfl, rfl, rfl, rfl⟩ := h
  have hl := listLoop_core policy since untl run.script ⟨0, 0, 0, 0, sa, 0, 0⟩ ⟨0, 0, 0, 0, sb, 0, 0⟩ rfl
  unfold aggregateRepo RepoPRDiffStats
  cases run.repo with
  | none => rfl
  | some r =>
    simp only
    cases ha : listLoop policy since untl run.script ⟨0, 0, 0, 0, sa, 0, 0⟩ with
    | none =>
      rw [ha] at hl
      cases hb : listLoop policy since untl run.script ⟨0, 0, 0, 0, sb, 0, 0⟩ with
      | none => rfl
      | some y => rw [hb] at hl; exact Option.noConfusion hl
    | some x =>
      rw [ha] at hl
      cases hb : listLoop policy since untl run.script ⟨0, 0, 0, 0, sb, 0, 0⟩ with
      | none => rw [hb] at hl; exact Option.noConfusion hl
      | some y =>
        rw [hb] at hl
        simp only [Option.map_some', Option.some.injEq] at hl
        obtain ⟨stats, s1⟩ := x
        obtain ⟨stats', s2⟩ := y
        simp only at hl
        subst hl
        simp only
        split_ifs with he <;> rfl

/-- The loop of `main` does the same to the summaries, the totals and the
global first and last whatever the sample. -/
theorem aggregateRepos_core {F : Type} (ext : Externals F) (policy : Policy)
    (since untl : Option Time) :
    ∀ (runs : List RepoRun) (st st' : Totals F), st.core = st'.core →
      (aggregateRepos ext policy since untl runs st).map Totals.core
        = (aggregateRepos ext policy since untl runs st').map Totals.core := by
  intro runs
  induction runs with
  | nil => intro st st' h; simpa [aggregateRepos] using h
  | cons run runs ih =>
    intro st st' h
    have hstep := aggregateRepo_core ext policy since untl st st' run h
    simp only [aggregateRepos]
    cases ha : aggregateRepo ext policy since untl st run with
    | none =>
      rw [ha] at hstep
      cases hb : aggregateRepo ext policy since untl st' run with
      | none => rfl
      | some b1 => rw [hb] at hstep; exact Option.noConfusion hstep
    | some a1 =>
      rw [ha] at hstep
      cases hb : aggregateRepo ext policy since untl st' run with
      | none => rw [hb] at hstep; exact Option.noConfusion hstep
      | some b1 =>
        rw [hb] at hstep
        simp only [Option.map_some', Option.some.injEq] at hstep
        exact ih a1 b1 hstep

/-- The loop of `main` over a list of repositories followed by another. -/
theorem aggregateRepos_append {F : Type} (ext : Externals F) (policy : Policy)
    (since untl : Option Time) :
    ∀ (xs ys : List RepoRun) (st st1 : Totals F),
      aggregateRepos ext policy since untl xs st = some st1 →
      aggregateRepos ext policy since untl (xs ++ ys) st
        = aggregateRepos ext policy since untl ys st1 := by
  intro xs
  induction xs with
  | nil =>
    intro ys st st1 h
    simp only [aggregateRepos, Option.some.injEq] at h
    subst h
    rfl
  | cons x xs ih =>
    intro ys st st1 h
    simp only [aggregateRepos, List.cons_append] at h ⊢
    cases hx : aggregateRepo ext policy since untl st x with
    | none => rw [hx] at h; exact Option.noConfusion h
    | some st2 =>
      rw [hx] at h
      exact ih ys st2 st1 h

/-- The aggregates of the summary depend on the summaries, the totals and the
global first and last only. -/
theorem summarize_aggregates {F : Type} (ext : Externals F) (n n' : Int) (st st' : Totals F)
    (h : st.core = st'.core) :
    (summarize ext n st).aggregates = (summarize ext n' st').aggregates := by
  obtain ⟨a1, a2, a3, a4, a5, sa, a6, a7⟩ := st
  obtain ⟨b1, b2, b3, b4, b5, sb, b6, b7⟩ := st'
  simp only [Totals.core, Prod.mk.injEq] at h
  obtain ⟨rfl, rfl, rfl, rfl, rfl, rfl, rfl⟩ := h
  rfl

/-- A listing that fails before any page was returned leaves the sample as it
was. -/
theorem listLoop_error_sample (policy : Policy) (since untl : Option Time) :
    ∀ (script : List ListResult) (acc : Acc) (stats : Stats) (sample' : Sample),
      listLoop policy since untl script acc = some (stats, sample') →
      (∀ prs NextPage, ListResult.ok prs NextPage ∉ script) →
      sample' = acc.sample := by
  intro script
  induction script with
  | nil =>
    intro acc stats sample' hrun
    exact Option.noConfusion hrun
  | cons e script ih =>
    intro acc stats sample' hrun hno
    cases e with
    | err resp now =>
      simp only [listLoop] at hrun
      split_ifs at hrun with hq
      · exact ih acc stats sample' hrun
          (fun prs n hm => hno prs n (List.mem_cons_of_mem _ hm))
      · simp only [Option.some.injEq, Prod.mk.injEq] at hrun
        exact hrun.2.symm
    | ok prs NextPage => exact absurd (List.mem_cons_self _ _) (hno prs NextPage)

/-- C12, counterexample: repository `a` fails on its second page (status 500)
after the 3-byte diff of a pull request of its first page was fetched, and
repository `b` has one pull request with a 2-byte diff. With `a` in the list
`repoCount` is 2 and the sample ends as budget 199995 and buffer
`[1,2,3,9,9]`; with `a` removed `repoCount` is 1 and the sample ends as budget
199998 and buffer `[9,9]`. -/
theorem mainReport_failed_repo_leaves_traces :
    RepoPRDiffStats ⟨false, 0, 0, 0, 1⟩ none none ⟨some 200000, some []⟩
        [ListResult.ok [⟨⟨some 20, 1, 0⟩, [RawResult.ok [1, 2, 3]]⟩] 2,
          ListResult.err (some ⟨some ⟨500, ⟨[]⟩⟩, ⟨0⟩⟩) 0]
      = some (⟨0, 0, 0, 0, true, 0, 0⟩, ⟨some 199997, some [1, 2, 3]⟩)
    ∧ (mainReport exactExternals ⟨false, 0, 0, 0, 1⟩ none none
        [⟨some ⟨some "a"⟩,
            [ListResult.ok [⟨⟨some 20, 1, 0⟩, [RawResult.ok [1, 2, 3]]⟩] 2,
              ListResult.err (some ⟨some ⟨500, ⟨[]⟩⟩, ⟨0⟩⟩) 0]⟩,
          ⟨some ⟨some "b"⟩,
            [ListResult.ok [⟨⟨some 30, 1, 0⟩, [RawResult.ok [9, 9]]⟩] 0]⟩]).map
          (fun rep => (rep.orgSummary.RepoCount, rep.sample))
        = some (2, ⟨some 199995, some [1, 2, 3, 9, 9]⟩)
    ∧ (mainReport exactExternals ⟨false, 0, 0, 0, 1⟩ none none
        [⟨some ⟨some "b"⟩,
            [ListResult.ok [⟨⟨some 30, 1, 0⟩, [RawResult.ok [9, 9]]⟩] 0]⟩]).map
          (fun rep => (rep.orgSummary.RepoCount, rep.sample))
        = some (1, ⟨some 199998, some [9, 9]⟩) := by
  decide

/-- C12, as amended: a repository whose pull-request listing fails (on any
page) adds no `RepoSummary` and nothing to the totals: the `RepoSummary`
sequence, `totalPRs`, `totalDiffChars`, `monthsSpan`, `avgMonthlyPRs`,
`avgMonthlyDiffChars` and the global first and last timestamps are those of the
run over the list with that repository removed (and one run returns iff the
other does). `repoCount` counts the failed repository: it is one more than in
the run without it. When the failed listing left the sample budget and buffer
as they were, which is so when it failed before any page was returned, the
whole report with tokens, costs and the final sample is that of the run
without the repository, `repoCount` apart. -/
theorem mainReport_failed_repo {F : Type} (ext : Externals F) (policy : Policy)
    (since untl : Option Time) (pre post : List RepoRun) (failed : RepoRun) (r : Repository)
    (st : Totals F) (stats : Stats) (sample' : Sample)
    (hrepo : failed.repo = some r)
    (hpre : aggregateRepos ext policy since untl pre (Totals.init F) = some st)
    (hfail : RepoPRDiffStats policy since untl st.sample failed.script = some (stats, sample'))
    (herr : stats.err = true) :
    (mainReport ext policy since untl (pre ++ failed :: post)).map Report.aggregates
        = (mainReport ext policy since untl (pre ++ post)).map Report.aggregates
    ∧ (mainReport ext policy since untl (pre ++ failed :: post)).map
          (fun rep => rep.orgSummary.RepoCount)
        = (mainReport ext policy since untl (pre ++ post)).map
          (fun rep => rep.orgSummary.RepoCount + 1)
    ∧ (sample' = st.sample →
        mainReport ext policy since untl (pre ++ failed :: post)
          = (mainReport ext policy since untl (pre ++ post)).map
            (fun rep =>
              ⟨rep.repoSummaries,
                ⟨rep.orgSummary.RepoCount + 1, rep.orgSummary.TotalPRs,
                  rep.orgSummary.TotalDiffChars, rep.orgSummary.MonthsSpan,
                  rep.orgSummary.AvgMonthlyPRs, rep.orgSummary.AvgMonthlyDiffChars,
                  rep.orgSummary.AvgMonthlyTokens, rep.orgSummary.CostGPT4oUSD,
                  rep.orgSummary.CostClaudeSonnetUSD⟩,
                rep.globalFirst, rep.globalLast, rep.sample, rep.globalFirstOffset,
                rep.globalLastOffset⟩))
    ∧ ((∀ prs NextPage, ListResult.ok prs NextPage ∉ failed.script) → sample' = st.sample) := by
  have hstep : aggregateRepo ext policy since untl st failed
      = some ⟨st.repoSummaries, st.orgTotalPRs, st.orgTotalDiffChars, st.globalFirst,
          st.globalLast, sample', st.globalFirstOffset, st.globalLastOffset⟩ := by
    simp only [aggregateRepo, hrepo, hfail, herr, if_true]
  have hwith : aggregateRepos ext policy since untl (pre ++ failed :: post) (Totals.init F)
      = aggregateRepos ext policy since untl post
          ⟨st.repoSummaries, st.orgTotalPRs, st.orgTotalDiffChars, st.globalFirst,
            st.globalLast, sample', st.globalFirstOffset, st.globalLastOffset⟩ := by
    rw [aggregateRepos_append ext policy since untl pre (failed :: post) _ st hpre]
    simp only [aggregateRepos, hstep]
  have hwithout : aggregateRepos ext policy since untl (pre ++ post) (Totals.init F)
      = aggregateRepos ext policy since untl post st :=
    aggregateRepos_append ext policy since untl pre post _ st hpre
  have hcore := aggregateRepos_core ext policy since untl post
    ⟨st.repoSummaries, st.orgTotalPRs, st.orgTotalDiffChars, st.globalFirst,
      st.globalLast, sample', st.globalFirstOffset, st.globalLastOffset⟩ st rfl
  have hlen : (((pre ++ failed :: post).length : Nat) : Int)
      = (((pre ++ post).length : Nat) : Int) + 1 := by
    simp only [List.length_append, List.length_cons]
    push_cast
    ring
  refine ⟨?_, ?_, ?_, ?_⟩
  · simp only [mainReport, hwith, hwithout]
    cases ha : aggregateRepos ext policy since untl post
        ⟨st.repoSummaries, st.orgTotalPRs, st.orgTotalDiffChars, st.globalFirst,
          st.globalLast, sample', st.globalFirstOffset, st.globalLastOffset⟩ with
    | none =>
      rw [ha] at hcore
      cases hb : aggregateRepos ext policy since untl post st with
      | none => rfl
      | some y => rw [hb] at hcore; exact Option.noConfusion hcore
    | some x =>
      rw [ha] at hcore
      cases hb : aggregateRepos ext policy since untl post st with
      | none => rw [hb] at hcore; exact Option.noConfusion hcore
      | some y =>
        rw [hb] at hcore
        simp only [Option.map_some', Option.some.injEq] at hcore
        simp only [Option.map_some', Option.some.injEq]
        exact summarize_aggregates ext _ _ x y hcore
  · simp only [mainReport, hwith, hwithout]
    cases ha : aggregateRepos ext policy since untl post
        ⟨st.repoSummaries, st.orgTotalPRs, st.orgTotalDiffChars, st.globalFirst,
          st.globalLast, sample', st.globalFirstOffset, st.globalLastOffset⟩ with
    | none =>
      rw [ha] at hcore
      cases hb : aggregateRepos ext policy since untl post st with
      | none => rfl
      | some y => rw [hb] at hcore; exact Option.noConfusion hcore
    | some x =>
      rw [ha] at hcore
      cases hb : aggregateRepos ext policy since untl post st with
      | none => rw [hb] at hcore; exact Option.noConfusion hcore
      | some y =>
        simp only [Option.map_some', Option.some.injEq, summarize]
        exact hlen
  · intro hs
    subst hs
    simp only [mainReport, hwith, hwithout]
    cases hb : aggregateRepos ext policy since untl post st with
    | none => rfl
    | some y =>
      simp only [Option.map_some', Option.some.injEq, summarize, hlen]
  · intro hno
    exact listLoop_error_sample policy since untl failed.script ⟨0, 0, 0, 0, st.sample, 0, 0⟩ stats
      sample' hfail hno

/-- C12, witness: repository `a` fails on its second page after a diff of its
first page was sampled, repository `b` follows; `repoCount` is one more than
in the run without `a`. -/
theorem mainReport_failed_repo_witness :
    (mainReport exactExternals ⟨false, 0, 0, 0, 1⟩ none none
        ([] ++ (⟨some ⟨some "a"⟩,
            [ListResult.ok [⟨⟨some 20, 1, 0⟩, [RawResult.ok [1, 2, 3]]⟩] 2,
              ListResult.err (some ⟨some ⟨500, ⟨[]⟩⟩, ⟨0⟩⟩) 0]⟩ : RepoRun)
          :: [⟨some ⟨some "b"⟩,
            [ListResult.ok [⟨⟨some 30, 1, 0⟩, [RawResult.ok [9, 9]]⟩] 0]⟩])).map
          (fun rep => rep.orgSummary.RepoCount)
      = (mainReport exactExternals ⟨false, 0, 0, 0, 1⟩ none none
        ([] ++ [⟨some ⟨some "b"⟩,
            [ListResult.ok [⟨⟨some 30, 1, 0⟩, [RawResult.ok [9, 9]]⟩] 0]⟩])).map
          (fun rep => rep.orgSummary.RepoCount + 1) :=
  (mainReport_failed_repo exactExternals ⟨false, 0, 0, 0, 1⟩ none none []
    [⟨some ⟨some "b"⟩, [ListResult.ok [⟨⟨some 30, 1, 0⟩, [RawResult.ok [9, 9]]⟩] 0]⟩]
    ⟨some ⟨some "a"⟩,
      [ListResult.ok [⟨⟨some 20, 1, 0⟩, [RawResult.ok [1, 2, 3]]⟩] 2,
        ListResult.err (some ⟨some ⟨500, ⟨[]⟩⟩, ⟨0⟩⟩) 0]⟩
    ⟨some "a"⟩ (Totals.init Rat) ⟨0, 0, 0, 0, true, 0, 0⟩ ⟨some 199997, some [1, 2, 3]⟩
    rfl rfl (by decide) rfl).2.1

/-- The year of the era of a day of the era lies in the era, starts on or
before the day and ends after it. -/
theorem yoe_bounds (doe : Int) (h0 : 0 ≤ doe) (h1 : doe < 146097) :
    0 ≤ (doe - doe / 1460 + doe / 36524 - doe / 146096) / 365
    ∧ (doe - doe / 1460 + doe / 36524 - doe / 146096) / 365 ≤ 399
    ∧ 365 * ((doe - doe / 1460 + doe / 36524 - doe / 146096) / 365)
          + (doe - doe / 1460 + doe / 36524 - doe / 146096) / 365 / 4
          - (doe - doe / 1460 + doe / 36524 - doe / 146096) / 365 / 100 ≤ doe
    ∧ doe < 365 * ((doe - doe / 1460 + doe / 36524 - doe / 146096) / 365 + 1)
          + ((doe - doe / 1460 + doe / 36524 - doe / 146096) / 365 + 1) / 4
          - ((doe - doe / 1460 + doe / 36524 - doe / 146096) / 365 + 1) / 100
          + ((doe - doe / 1460 + doe / 36524 - doe / 146096) / 365 + 1) / 400 := by
  obtain ⟨f, hf⟩ : ∃ f, f = doe / 36524 := ⟨_, rfl⟩
  obtain ⟨e, he⟩ : ∃ e, e = doe / 1460 := ⟨_, rfl⟩
  have hf0 : 0 ≤ f := by omega
  have hf1 : f ≤ 4 := by omega
  rw [← he, ← hf]
  interval_cases f
  · have hb0 : 0 ≤ e := by omega
    have hb1 : e ≤ 25 := by omega
    interval_cases e <;> omega
  · have hb0 : 25 ≤ e := by omega
    have hb1 : e ≤ 50 := by omega
    interval_cases e <;> omega
  · have hb0 : 50 ≤ e := by omega
    have hb1 : e ≤ 75 := by omega
    interval_cases e <;> omega
  · have hb0 : 75 ≤ e := by omega
    have hb1 : e ≤ 100 := by omega
    interval_cases e <;> omega
  · have hb0 : doe = 146096 := by omega
    subst hb0
    omega

/-- The years of an era start one after the other. -/
theorem yearStart_mono (b b' : Int) (h0 : 0 ≤ b) (h : b < b') (h1 : b' ≤ 399) :
    365 * (b + 1) + (b + 1) / 4 - (b + 1) / 100 + (b + 1) / 400
      ≤ 365 * b' + b' / 4 - b' / 100 := by
  omega

/-- Month and day of the month grow with the day of the year. -/
theorem month_step (doy doy' : Int) (h0 : 0 ≤ doy) (h : doy ≤ doy') (h1 : doy' ≤ 365) :
    0 ≤ (5 * doy + 2) / 153 ∧ (5 * doy' + 2) / 153 ≤ 11
    ∧ ((5 * doy + 2) / 153 < (5 * doy' + 2) / 153
      ∨ ((5 * doy + 2) / 153 = (5 * doy' + 2) / 153
        ∧ doy - (153 * ((5 * doy + 2) / 153) + 2) / 5 + 1
            ≤ doy' - (153 * ((5 * doy' + 2) / 153) + 2) / 5 + 1)) := by
  omega

/-- The date of a wall-clock reading, from the era, the year of the era and the month
counted from March. -/
theorem civilDate_decomp (t : Int) :
    ∃ era doe yoe doy mp : Int,
      era = (t / 86400000000000 + 306) / 146097
      ∧ doe = (t / 86400000000000 + 306) % 146097
      ∧ yoe = (doe - doe / 1460 + doe / 36524 - doe / 146096) / 365
      ∧ doy = doe - (365 * yoe + yoe / 4 - yoe / 100)
      ∧ mp = (5 * doy + 2) / 153
      ∧ civilDate t = (yoe + era * 400 + (if (if mp < 10 then mp + 3 else mp - 9) ≤ 2 then 1 else 0),
          (if mp < 10 then mp + 3 else mp - 9), doy - (153 * mp + 2) / 5 + 1) :=
  ⟨_, _, _, _, _, rfl, rfl, rfl, rfl, rfl, rfl⟩

/-- Era and day of the era grow with instants. -/
theorem days_step (t t' : Int) (h : t ≤ t') :
    (t / 86400000000000 + 306) / 146097 < (t' / 86400000000000 + 306) / 146097
    ∨ ((t / 86400000000000 + 306) / 146097 = (t' / 86400000000000 + 306) / 146097
      ∧ (t / 86400000000000 + 306) % 146097 ≤ (t' / 86400000000000 + 306) % 146097) := by
  omega

/-- The day of the year is between 0 and 365. -/
theorem doy_bounds (doe yoe : Int) (h0 : 0 ≤ yoe) (h1 : yoe ≤ 399)
    (h3 : 365 * yoe + yoe / 4 - yoe / 100 ≤ doe)
    (h4 : doe < 365 * (yoe + 1) + (yoe + 1) / 4 - (yoe + 1) / 100 + (yoe + 1) / 400) :
    0 ≤ doe - (365 * yoe + yoe / 4 - yoe / 100)
    ∧ doe - (365 * yoe + yoe / 4 - yoe / 100) ≤ 365 := by
  omega

/-- The year of the era grows with the day of the era. -/
theorem year_le (doe doe' yoe yoe' : Int) (h0 : 0 ≤ yoe') (h1 : yoe ≤ 399)
    (h3 : 365 * yoe + yoe / 4 - yoe / 100 ≤ doe)
    (h4 : doe' < 365 * (yoe' + 1) + (yoe' + 1) / 4 - (yoe' + 1) / 100 + (yoe' + 1) / 400)
    (h : doe ≤ doe') : yoe ≤ yoe' := by
  by_contra hc
  have hlt : yoe' < yoe := not_le.mp hc
  have := yearStart_mono yoe' yoe h0 hlt h1
  omega

/-- From the order on era, year of the era, month from March and day to the
order on civil year, month and day. -/
theorem index_lex (era era' yoe yoe' mp mp' d d' : Int)
    (a1 : 0 ≤ yoe) (a2 : yoe ≤ 399) (b1 : 0 ≤ yoe') (b2 : yoe' ≤ 399)
    (m1 : 0 ≤ mp) (m2 : mp ≤ 11) (n1 : 0 ≤ mp') (n2 : mp' ≤ 11)
    (hlex : era < era' ∨ (era = era' ∧ (yoe < yoe' ∨ (yoe = yoe' ∧
      (mp < mp' ∨ (mp = mp' ∧ d ≤ d')))))) :
    1 ≤ (if mp < 10 then mp + 3 else mp - 9) ∧ (if mp < 10 then mp + 3 else mp - 9) ≤ 12
    ∧ 1 ≤ (if mp' < 10 then mp' + 3 else mp' - 9) ∧ (if mp' < 10 then mp' + 3 else mp' - 9) ≤ 12
    ∧ (12 * (yoe + era * 400 + (if (if mp < 10 then mp + 3 else mp - 9) ≤ 2 then 1 else 0))
          + (if mp < 10 then mp + 3 else mp - 9)
        < 12 * (yoe' + era' * 400
            + (if (if mp' < 10 then mp' + 3 else mp' - 9) ≤ 2 then 1 else 0))
          + (if mp' < 10 then mp' + 3 else mp' - 9)
      ∨ (yoe + era * 400 + (if (if mp < 10 then mp + 3 else mp - 9) ≤ 2 then 1 else 0)
          = yoe' + era' * 400 + (if (if mp' < 10 then mp' + 3 else mp' - 9) ≤ 2 then 1 else 0)
        ∧ (if mp < 10 then mp + 3 else mp - 9) = (if mp' < 10 then mp' + 3 else mp' - 9)
        ∧ d ≤ d')) := by
  split_ifs <;> omega

/-- Dates grow with wall-clock readings: the month is between 1 and 12, and of
two readings the later one is in a later month, or in the same month on the same
or a later day. -/
theorem civilDate_lex (t t' : Int) (h : t ≤ t') :
    1 ≤ (civilDate t).2.1 ∧ (civilDate t).2.1 ≤ 12 ∧ 1 ≤ (civilDate t').2.1 ∧ (civilDate t').2.1 ≤ 12
    ∧ (12 * (civilDate t).1 + (civilDate t).2.1 < 12 * (civilDate t').1 + (civilDate t').2.1
      ∨ ((civilDate t).1 = (civilDate t').1 ∧ (civilDate t).2.1 = (civilDate t').2.1
        ∧ (civilDate t).2.2 ≤ (civilDate t').2.2)) := by
  obtain ⟨era, doe, yoe, doy, mp, e1, e2, e3, e4, e5, e6⟩ := civilDate_decomp t
  obtain ⟨era', doe', yoe', doy', mp', f1, f2, f3, f4, f5, f6⟩ := civilDate_decomp t'
  rw [e6, f6]
  simp only
  have hera : era < era' ∨ (era = era' ∧ doe ≤ doe') := by
    rw [e1, e2, f1, f2]
    exact days_step t t' h
  have hdoe0 : 0 ≤ doe := by rw [e2]; exact Int.emod_nonneg _ (by norm_num)
  have hdoe1 : doe < 146097 := by rw [e2]; exact Int.emod_lt_of_pos _ (by norm_num)
  have hdoe0' : 0 ≤ doe' := by rw [f2]; exact Int.emod_nonneg _ (by norm_num)
  have hdoe1' : doe' < 146097 := by rw [f2]; exact Int.emod_lt_of_pos _ (by norm_num)
  obtain ⟨a1, a2, a3, a4⟩ := yoe_bounds doe hdoe0 hdoe1
  obtain ⟨b1, b2, b3, b4⟩ := yoe_bounds doe' hdoe0' hdoe1'
  rw [← e3] at a1 a2 a3 a4
  rw [← f3] at b1 b2 b3 b4
  obtain ⟨hdoy0, hdoy1⟩ := doy_bounds doe yoe a1 a2 a3 a4
  obtain ⟨hdoy0', hdoy1'⟩ := doy_bounds doe' yoe' b1 b2 b3 b4
  rw [← e4] at hdoy0 hdoy1
  rw [← f4] at hdoy0' hdoy1'
  obtain ⟨m1, m2, _⟩ := month_step doy doy hdoy0 (le_refl _) hdoy1
  obtain ⟨n1, n2, _⟩ := month_step doy' doy' hdoy0' (le_refl _) hdoy1'
  rw [← e5] at m1 m2
  rw [← f5] at n1 n2
  have hlex : era < era' ∨ (era = era' ∧ (yoe < yoe' ∨ (yoe = yoe' ∧
      (mp < mp' ∨ (mp = mp' ∧ doy - (153 * mp + 2) / 5 + 1
        ≤ doy' - (153 * mp' + 2) / 5 + 1))))) := by
    rcases hera with h1 | ⟨h1, h2⟩
    · exact Or.inl h1
    · refine Or.inr ⟨h1, ?_⟩
      have hy : yoe ≤ yoe' := year_le doe doe' yoe yoe' b1 a2 a3 b4 h2
      rcases lt_or_eq_of_le hy with h3 | h3
      · exact Or.inl h3
      · refine Or.inr ⟨h3, ?_⟩
        have hdd : doy ≤ doy' := by
          rw [e4, f4, h3]
          exact sub_le_sub_right h2 _
        obtain ⟨_, _, h4⟩ := month_step doy doy' hdoy0 hdd hdoy1'
        rw [← e5, ← f5] at h4
        exact h4
  exact index_lex era era' yoe yoe' mp mp' _ _ a1 a2 b1 b2 m1 m2 n1 n2 hlex

/-- The months span of two non-zero instants. -/
theorem computeMonthsSpan_nonzero (f l : Time) (fo lo : Int) (hf : f ≠ 0) (hl : l ≠ 0) :
    computeMonthsSpan f l fo lo
      = max 1 (((Date l lo).1 - (Date f fo).1) * 12 + ((Date l lo).2.1 - (Date f fo).2.1)
          + (if (Date l lo).2.2 < (Date f fo).2.2 then 1 else 0)) := by
  unfold computeMonthsSpan
  have hz : ¬ ((IsZero f || IsZero l) = true) := by simp [IsZero, hf, hl]
  rw [if_neg hz]
  obtain ⟨y1, m1, d1⟩ := Date f fo
  obtain ⟨y2, m2, d2⟩ := Date l lo
  simp only
  by_cases hd : d2 < d1
  · simp only [hd, if_true]
    by_cases hm : (y2 - y1) * 12 + (m2 - m1) + 1 < 1
    · rw [if_pos hm, max_eq_left (le_of_lt hm)]
    · rw [if_neg hm, max_eq_right (not_lt.mp hm)]
  · simp only [hd, if_false, add_zero]
    by_cases hm : (y2 - y1) * 12 + (m2 - m1) < 1
    · rw [if_pos hm, max_eq_left (le_of_lt hm)]
    · rw [if_neg hm, max_eq_right (not_lt.mp hm)]

/-- C9: `computeMonthsSpan` is 0 when either instant is the zero time, and
otherwise `max(1, (y2-y1)*12 + (m2-m1) + (1 if d2 < d1 else 0))` for the dates
`(y1,m1,d1)` of `first` and `(y2,m2,d2)` of `last`, each read in the location
of its own value. For every non-zero pair whose dates are 2024-01-10 and
2024-03-05, in whatever locations, the formula gives
`(2024-2024)*12 + (3-1) + 1 = 3` and that is what the code returns; so it does
for the two midnights in UTC, and for 2024-01-10T05:00+09:00 with
2024-03-05T23:00-08:00. -/
theorem computeMonthsSpan_eq (first last : Time) (firstOffset lastOffset : Int) :
    computeMonthsSpan first last firstOffset lastOffset
      = (if first = 0 ∨ last = 0 then 0
         else max 1 (((Date last lastOffset).1 - (Date first firstOffset).1) * 12
                + ((Date last lastOffset).2.1 - (Date first firstOffset).2.1)
                + (if (Date last lastOffset).2.2 < (Date first firstOffset).2.2
                    then 1 else 0)))
    ∧ (first ≠ 0 → last ≠ 0 → Date first firstOffset = (2024, 1, 10) →
        Date last lastOffset = (2024, 3, 5) →
        computeMonthsSpan first last firstOffset lastOffset = 3)
    ∧ ((2024 - 2024) * 12 + (3 - 1) + 1 : Int) = 3
    ∧ Date (midnightUTC 2024 1 10) 0 = (2024, 1, 10)
    ∧ Date (midnightUTC 2024 3 5) 0 = (2024, 3, 5)
    ∧ computeMonthsSpan (midnightUTC 2024 1 10) (midnightUTC 2024 3 5) 0 0 = 3
    ∧ Date (midnightUTC 2024 1 9 + 20 * 3600 * Second) 32400 = (2024, 1, 10)
    ∧ Date (midnightUTC 2024 3 6 + 7 * 3600 * Second) (-28800) = (2024, 3, 5)
    ∧ computeMonthsSpan (midnightUTC 2024 1 9 + 20 * 3600 * Second)
        (midnightUTC 2024 3 6 + 7 * 3600 * Second) 32400 (-28800) = 3 := by
  refine ⟨?_, ?_, by decide, by decide, by decide, by decide, by decide, by decide, by decide⟩
  · by_cases hz : first = 0 ∨ last = 0
    · have : (IsZero first || IsZero last) = true := by
        rcases hz with h | h <;> simp [IsZero, h]
      rw [if_pos hz]
      unfold computeMonthsSpan
      rw [if_pos this]
    · rw [if_neg hz]
      simp only [not_or] at hz
      exact computeMonthsSpan_nonzero first last firstOffset lastOffset hz.1 hz.2
  · intro hf hl h1 h2
    rw [computeMonthsSpan_nonzero first last firstOffset lastOffset hf hl, h1, h2]
    decide

/-- C13, counterexample: with `first` = 2023-01-10, the months span is 13 for
`last` = 2024-01-05 and 12 for the later `last` = 2024-01-15 (all in UTC,
non-zero, both lasts after `first`). And across locations the drop can be
larger: with `first` = 2024-01-10T00:00Z the span is 3 for `last` =
2024-03-01T05:00+09:00 and 1 for the later `last` = 2024-02-29T21:00Z. -/
theorem computeMonthsSpan_not_monotone :
    midnightUTC 2023 1 10 ≠ 0 ∧ midnightUTC 2024 1 5 ≠ 0 ∧ midnightUTC 2024 1 15 ≠ 0
    ∧ midnightUTC 2023 1 10 ≤ midnightUTC 2024 1 5
    ∧ midnightUTC 2024 1 5 ≤ midnightUTC 2024 1 15
    ∧ Date (midnightUTC 2023 1 10) 0 = (2023, 1, 10)
    ∧ Date (midnightUTC 2024 1 5) 0 = (2024, 1, 5)
    ∧ Date (midnightUTC 2024 1 15) 0 = (2024, 1, 15)
    ∧ computeMonthsSpan (midnightUTC 2023 1 10) (midnightUTC 2024 1 5) 0 0 = 13
    ∧ computeMonthsSpan (midnightUTC 2023 1 10) (midnightUTC 2024 1 15) 0 0 = 12
    ∧ midnightUTC 2024 2 29 + 20 * 3600 * Second ≤ midnightUTC 2024 2 29 + 21 * 3600 * Second
    ∧ Date (midnightUTC 2024 2 29 + 20 * 3600 * Second) 32400 = (2024, 3, 1)
    ∧ Date (midnightUTC 2024 2 29 + 21 * 3600 * Second) 0 = (2024, 2, 29)
    ∧ computeMonthsSpan (midnightUTC 2024 1 10)
        (midnightUTC 2024 2 29 + 20 * 3600 * Second) 0 32400 = 3
    ∧ computeMonthsSpan (midnightUTC 2024 1 10)
        (midnightUTC 2024 2 29 + 21 * 3600 * Second) 0 0 = 1 := by
  decide

/-- C13, as amended: for non-zero `first`, `last` and `last'` such that the
wall clock of `last` (in its location) reads no later than the wall clock of
`last'` (in its location), which is `last ≤ last'` when both are in the same
location as the UTC timestamps of the API are, the months span for `last` is
at most the months span for `last'` unless `last` and `last'` fall in the same
calendar month with the day of `last` before the day of `first` and the day of
`last'` on or after it; in every case the months span for `last'` is at least
the months span for `last` minus 1; and in the excepted case, when the wall
clock of `first` reads no later than that of `last`, it is exactly that. -/
theorem computeMonthsSpan_mono (first last last' : Time) (firstOffset lastOffset lastOffset' : Int)
    (hf : first ≠ 0) (hl : last ≠ 0) (hl' : last' ≠ 0)
    (hle : last + lastOffset * Second ≤ last' + lastOffset' * Second) :
    (¬ ((Date last lastOffset).1 = (Date last' lastOffset').1
        ∧ (Date last lastOffset).2.1 = (Date last' lastOffset').2.1
        ∧ (Date last lastOffset).2.2 < (Date first firstOffset).2.2
        ∧ (Date first firstOffset).2.2 ≤ (Date last' lastOffset').2.2) →
      computeMonthsSpan first last firstOffset lastOffset
        ≤ computeMonthsSpan first last' firstOffset lastOffset')
    ∧ computeMonthsSpan first last firstOffset lastOffset
        ≤ computeMonthsSpan first last' firstOffset lastOffset' + 1
    ∧ (first + firstOffset * Second ≤ last + lastOffset * Second →
        (Date last lastOffset).1 = (Date last' lastOffset').1 →
        (Date last lastOffset).2.1 = (Date last' lastOffset').2.1 →
        (Date last lastOffset).2.2 < (Date first firstOffset).2.2 →
        (Date first firstOffset).2.2 ≤ (Date last' lastOffset').2.2 →
        computeMonthsSpan first last firstOffset lastOffset
          = computeMonthsSpan first last' firstOffset lastOffset' + 1) := by
  rw [computeMonthsSpan_nonzero first last firstOffset lastOffset hf hl,
    computeMonthsSpan_nonzero first last' firstOffset lastOffset' hf hl']
  have h1 := civilDate_lex (last + lastOffset * Second) (last' + lastOffset' * Second) hle
  have h2 : first + firstOffset * Second ≤ last + lastOffset * Second →
      (12 * (Date first firstOffset).1 + (Date first firstOffset).2.1
          < 12 * (Date last lastOffset).1 + (Date last lastOffset).2.1
      ∨ ((Date first firstOffset).1 = (Date last lastOffset).1
        ∧ (Date first firstOffset).2.1 = (Date last lastOffset).2.1
        ∧ (Date first firstOffset).2.2 ≤ (Date last lastOffset).2.2)) :=
    fun h => (civilDate_lex _ _ h).2.2.2.2
  have e1 : civilDate (last + lastOffset * Second) = Date last lastOffset := rfl
  have e2 : civilDate (last' + lastOffset' * Second) = Date last' lastOffset' := rfl
  rw [e1, e2] at h1
  generalize Date first firstOffset = p1 at h1 h2 ⊢
  generalize Date last lastOffset = p2 at h1 h2 ⊢
  generalize Date last' lastOffset' = p3 at h1 h2 ⊢
  obtain ⟨y1, m1, d1⟩ := p1
  obtain ⟨y2, m2, d2⟩ := p2
  obtain ⟨y3, m3, d3⟩ := p3
  simp only at h1 h2 ⊢
  obtain ⟨r1, r2, r3, r4, hlex⟩ := h1
  refine ⟨?_, ?_, ?_⟩
  · intro hex
    simp only [max_def]
    split_ifs <;> omega
  · simp only [max_def]
    split_ifs <;> omega
  · intro hfl e1 e2 e3 e4
    have h2' := h2 hfl
    simp only [max_def]
    split_ifs <;> omega

/-- C13, witness: with `first` = 2024-01-10 (UTC), the months span for `last` =
2024-03-05T12:00+09:00 is at most that for `last` = 2024-05-01 (UTC). -/
theorem computeMonthsSpan_mono_witness :
    computeMonthsSpan (midnightUTC 2024 1 10) (midnightUTC 2024 3 5 + 3 * 3600 * Second) 0 32400
      ≤ computeMonthsSpan (midnightUTC 2024 1 10) (midnightUTC 2024 5 1) 0 0 :=
  (computeMonthsSpan_mono (midnightUTC 2024 1 10) (midnightUTC 2024 3 5 + 3 * 3600 * Second)
    (midnightUTC 2024 5 1) 0 32400 0 (by decide) (by decide) (by decide) (by decide)).1
    (by decide)

end Main
